import Mathlib

/-!
Verification of the autoplay turn-planning core of the hashfront repository
(`tools/autoplay/{config,pathfinder,strategy,planner}.py` and the action
encoder of `tools/autoplay/executor.py`) against its specification.

The Python modules are shallowly embedded: every function below mirrors one
Python function of the same (or underscore-stripped) name, statement by
statement.  Python `int` becomes `ℤ` (or `ℕ` where the source value is a
count or a cost that is provably non-negative), Python `float` becomes `ℚ`
(all comparisons appearing in the proved facts are exact, away from binary
rounding), dictionaries become insertion-ordered association lists (Python
dicts iterate in insertion order, which the planner relies on for
tie-breaking), sets become lists used only through membership, and the
`heapq` priority queue becomes a list popped at its least element under
Python's lexicographic tuple order.  The two Dijkstra loops are written with
an explicit fuel parameter bounding the number of iterations; the fuel is
far larger than the loop can ever run on the fixed 20x20 board (each
position enters the result map at most once and every push stems from such
an insertion), and all universally quantified theorems below are proved for
every fuel value, so no conclusion depends on the bound.
-/

-- Batteries marks the `Rat` arithmetic operations `@[irreducible]`, which
-- blocks elaboration-time evaluation (`decide`, `rfl`) of the planner's
-- rational score computations; the kernel itself reduces them regardless.
-- Restoring the default reducibility changes no statement and no value.
set_option allowUnsafeReducibility true
attribute [semireducible] Rat.mul Rat.inv Rat.add Rat.sub Rat.ofScientific

-- ── config.py ──────────────────────────────────────────────────────

abbrev Pos := ℤ × ℤ

def TERRAIN_GRASS : ℕ := 0
def TERRAIN_MOUNTAIN : ℕ := 1
def TERRAIN_CITY : ℕ := 2
def TERRAIN_FACTORY : ℕ := 3
def TERRAIN_HQ : ℕ := 4
def TERRAIN_ROAD : ℕ := 5
def TERRAIN_TREE : ℕ := 6
def TERRAIN_DIRT_ROAD : ℕ := 7

/-- The three unit types; the Python source identifies them by the strings
"Infantry", "Ranger" and "Tank". -/
inductive UnitType
  | Infantry
  | Ranger
  | Tank
deriving DecidableEq, Repr

open UnitType

/-- MOVE_RANGE dict of config.py. -/
def MOVE_RANGE : UnitType → ℕ
  | Infantry => 4
  | Ranger => 3
  | Tank => 2

/-- Attack range entry: Python stores either an int or a (min, max) tuple. -/
inductive ARange
  | single (r : ℕ)
  | band (lo hi : ℕ)
deriving DecidableEq, Repr

/-- ATTACK_RANGE dict of config.py. -/
def ATTACK_RANGE : UnitType → ARange
  | Infantry => .single 1
  | Ranger => .band 2 3
  | Tank => .single 1

def arLo : ARange → ℕ
  | .single r => r
  | .band lo _ => lo

def arHi : ARange → ℕ
  | .single r => r
  | .band _ hi => hi

/-- UNIT_ATK dict of config.py. -/
def UNIT_ATK : UnitType → ℤ
  | Infantry => 2
  | Ranger => 3
  | Tank => 4

/-- UNIT_HP dict of config.py. -/
def UNIT_HP : UnitType → ℤ
  | Infantry => 3
  | Ranger => 3
  | Tank => 5

/-- `TERRAIN_COST.get(t, dflt)` of config.py. -/
def TERRAIN_COST_get (t : ℕ) (dflt : ℕ) : ℕ :=
  if t = TERRAIN_GRASS then 1
  else if t = TERRAIN_MOUNTAIN then 2
  else if t = TERRAIN_CITY then 1
  else if t = TERRAIN_FACTORY then 1
  else if t = TERRAIN_HQ then 1
  else if t = TERRAIN_ROAD then 1
  else if t = TERRAIN_TREE then 1
  else if t = TERRAIN_DIRT_ROAD then 1
  else dflt

/-- `TERRAIN_DEFENSE.get(t, dflt)` of config.py (the planner always passes
default 0). -/
def TERRAIN_DEFENSE_get (t : ℕ) (dflt : ℤ) : ℤ :=
  if t = TERRAIN_GRASS then 0
  else if t = TERRAIN_MOUNTAIN then 2
  else if t = TERRAIN_CITY then 1
  else if t = TERRAIN_FACTORY then 1
  else if t = TERRAIN_HQ then 2
  else if t = TERRAIN_ROAD then 0
  else if t = TERRAIN_TREE then 1
  else if t = TERRAIN_DIRT_ROAD then 0
  else dflt

-- ── Grid access ────────────────────────────────────────────────────

/-- A terrain grid, `grid[y][x]` in the source. -/
abbrev Grid := List (List ℕ)

/-- Total model of `grid[y][x]`.  Wherever the Python planner performs the
access the coordinates are within the 20x20 board, on which this function
agrees with Python subscripting; the out-of-range default is irrelevant to
every theorem below. -/
def gridAt (g : Grid) (p : Pos) : ℕ :=
  (g.getD p.2.toNat []).getD p.1.toNat TERRAIN_GRASS

/-- Association-list lookup, the model of Python `dict` indexing /
`dict.get`. -/
def alistGet {κ α : Type} [DecidableEq κ] : List (κ × α) → κ → Option α
  | [], _ => none
  | (k, v) :: rest, p => if k = p then some v else alistGet rest p

/-- Association-list update, the model of Python `d[k] = v`: an existing key
keeps its place in insertion order, a new key is appended. -/
def alistSet {κ α : Type} [DecidableEq κ] (l : List (κ × α)) (k : κ) (v : α) :
    List (κ × α) :=
  match alistGet l k with
  | some _ => l.map (fun kv => if kv.1 = k then (kv.1, v) else kv)
  | none => l ++ [(k, v)]

-- ── pathfinder.py ──────────────────────────────────────────────────

/-- `manhattan` of pathfinder.py on integer positions. -/
def manhattan (a b : Pos) : ℕ :=
  (a.1 - b.1).natAbs + (a.2 - b.2).natAbs

/-- `manhattan` applied to a float (here: rational) point, as in the
flanker-selection sort key of planner.py. -/
def manhattanQ (a : Pos) (b : ℚ × ℚ) : ℚ :=
  |(a.1 : ℚ) - b.1| + |(a.2 : ℚ) - b.2|

/-- `neighbors` of pathfinder.py; every call site uses the default bounds
`width = height = 20`, which callers below pass explicitly. -/
def neighbors (x y : ℤ) (width height : ℤ) : List Pos :=
  [(x, y - 1), (x, y + 1), (x - 1, y), (x + 1, y)].filter
    (fun p => decide (0 ≤ p.1 ∧ p.1 < width ∧ 0 ≤ p.2 ∧ p.2 < height))

/-- `move_cost` of pathfinder.py: `none` is impassable. -/
def move_cost (terrain : ℕ) (ut : UnitType) : Option ℕ :=
  if terrain = TERRAIN_MOUNTAIN then
    if ut ≠ Infantry then none else some 2
  else some (TERRAIN_COST_get terrain 1)

/-- An entry of the `find_reachable` priority queue: the Python tuple
`(cost, pos, path)`. -/
structure QEntry where
  cost : ℕ
  pos : Pos
  path : List Pos
deriving DecidableEq, Repr

/-- Python `<` on coordinate pairs (lexicographic tuple comparison). -/
def posLtB (a b : Pos) : Bool :=
  decide (a.1 < b.1) || (decide (a.1 = b.1) && decide (a.2 < b.2))

/-- Python `<` on lists of coordinate pairs (lexicographic). -/
def pathLtB : List Pos → List Pos → Bool
  | [], [] => false
  | [], _ :: _ => true
  | _ :: _, [] => false
  | a :: as, b :: bs => posLtB a b || (decide (a = b) && pathLtB as bs)

/-- Python `<` on `(cost, pos, path)` heap tuples. -/
def entryLtB (a b : QEntry) : Bool :=
  decide (a.cost < b.cost) ||
    (decide (a.cost = b.cost) &&
      (posLtB a.pos b.pos || (decide (a.pos = b.pos) && pathLtB a.path b.path)))

/-- Model of `heapq.heappop`: remove the least entry under Python tuple
order.  Distinct entries never compare equal under the full `(cost, pos,
path)` order unless they are identical, so which duplicate is removed is
immaterial. -/
def popMin : List QEntry → Option (QEntry × List QEntry)
  | [] => none
  | e :: rest =>
    match popMin rest with
    | none => some (e, [])
    | some (m, rest2) => if entryLtB m e then some (m, e :: rest2) else some (e, rest)

/-- The result map of `find_reachable`: Python dict `(x, y) -> (cost, path)`
in insertion order. -/
abbrev Reach := List (Pos × ℕ × List Pos)

/-- The `while open_set:` loop of `find_reachable`, with explicit fuel. -/
def frLoop (grid : Grid) (ut : UnitType) (occupied : List Pos) (maxRange : ℕ) :
    ℕ → List QEntry → Reach → Reach
  | 0, _, best => best
  | Nat.succ fuel, opens, best =>
    match popMin opens with
    | none => best
    | some (e, rest) =>
      if (alistGet best e.pos).isSome then
        frLoop grid ut occupied maxRange fuel rest best
      else
        let best2 := best ++ [(e.pos, e.cost, e.path)]
        if maxRange ≤ e.cost then
          frLoop grid ut occupied maxRange fuel rest best2
        else
          let pushes := (neighbors e.pos.1 e.pos.2 20 20).filterMap (fun np =>
            if (alistGet best2 np).isSome then none
            else
              match move_cost (gridAt grid np) ut with
              | none => none
              | some step =>
                if maxRange < e.cost + step then none
                else if np ∈ occupied then none
                else some (QEntry.mk (e.cost + step) np (e.path ++ [np])))
          frLoop grid ut occupied maxRange fuel (rest ++ pushes) best2

/-- Fuel bound for both Dijkstra loops; far above the provable iteration
bound on the 20x20 board (at most 401 insertions, hence at most 1605 pushes
and as many pops). -/
def SEARCH_FUEL : ℕ := 100000

/-- `find_reachable` of pathfinder.py.  The optional `max_range` argument is
made explicit (`none` at every call site that uses the Python default). -/
def find_reachable (grid : Grid) (start : Pos) (ut : UnitType) (occupied : List Pos)
    (maxRange : Option ℕ) : Reach :=
  let mr := maxRange.getD (MOVE_RANGE ut)
  frLoop grid ut occupied mr SEARCH_FUEL [⟨0, start, []⟩] []

/-- An entry of the `full_path_distance` priority queue: the tuple
`(cost, pos)`. -/
structure DEntry where
  cost : ℕ
  pos : Pos
deriving DecidableEq, Repr

def dentryLtB (a b : DEntry) : Bool :=
  decide (a.cost < b.cost) || (decide (a.cost = b.cost) && posLtB a.pos b.pos)

/-- `heapq.heappop` for the distance search (duplicates of an identical
`(cost, pos)` tuple are interchangeable). -/
def popMinD : List DEntry → Option (DEntry × List DEntry)
  | [] => none
  | e :: rest =>
    match popMinD rest with
    | none => some (e, [])
    | some (m, rest2) => if dentryLtB m e then some (m, e :: rest2) else some (e, rest)

/-- The `while open_set:` loop of `full_path_distance`, with explicit fuel. -/
def fpLoop (grid : Grid) (ut : UnitType) :
    ℕ → List DEntry → List (Pos × ℕ) → List (Pos × ℕ)
  | 0, _, dist => dist
  | Nat.succ fuel, opens, dist =>
    match popMinD opens with
    | none => dist
    | some (e, rest) =>
      if (alistGet dist e.pos).isSome then fpLoop grid ut fuel rest dist
      else
        let dist2 := dist ++ [(e.pos, e.cost)]
        let pushes := (neighbors e.pos.1 e.pos.2 20 20).filterMap (fun np =>
          if (alistGet dist2 np).isSome then none
          else
            match move_cost (gridAt grid np) ut with
            | none => none
            | some step => some (DEntry.mk (e.cost + step) np))
        fpLoop grid ut fuel (rest ++ pushes) dist2

/-- `full_path_distance` of pathfinder.py: reverse Dijkstra from `goal`
ignoring move budget and occupancy.  The `start` argument is unused, as in
the source. -/
def full_path_distance (grid : Grid) (_start goal : Pos) (ut : UnitType) :
    List (Pos × ℕ) :=
  fpLoop grid ut SEARCH_FUEL [⟨0, goal⟩] []

/-- `best_move_toward` of pathfinder.py. -/
def best_move_toward (grid : Grid) (start goal : Pos) (ut : UnitType)
    (occupied : List Pos) : List Pos :=
  let reachable := find_reachable grid start ut occupied none
  match alistGet reachable goal with
  | some (_, p :: ps) => p :: ps
  | _ =>
    let true_dist := full_path_distance grid start goal ut
    match alistGet true_dist start with
    | none => []
    | some start_dist =>
      let res := reachable.foldl
        (fun (acc : ℕ × Option Pos) item =>
          if item.1 = start ∨ item.2.2 = [] then acc
          else
            match alistGet true_dist item.1 with
            | none => acc
            | some d => if d < acc.1 then (d, some item.1) else acc)
        (start_dist, none)
      match res.2 with
      | none => []
      | some bt =>
        match alistGet reachable bt with
        | some (_, p) => p
        | none => []

/-- Stable insertion step of `pySort`. -/
def pyInsert {α : Type} (le : α → α → Bool) (x : α) : List α → List α
  | [] => [x]
  | y :: ys => if le x y then x :: y :: ys else y :: pyInsert le x ys

/-- Model of Python's stable `list.sort()` / `sorted()`: for a total
preorder `le` the output of a stable sort is uniquely determined, so this
structurally recursive insertion sort coincides with Timsort (and is
kernel-reducible, unlike `List.mergeSort`). -/
def pySort {α : Type} (le : α → α → Bool) : List α → List α
  | [] => []
  | x :: xs => pyInsert le x (pySort le xs)

/-- Python `<` on `(cost, pos, path)` candidate tuples used by the
`candidates.sort()` calls of pathfinder.py. -/
def candLtB (a b : ℕ × Pos × List Pos) : Bool :=
  decide (a.1 < b.1) ||
    (decide (a.1 = b.1) &&
      (posLtB a.2.1 b.2.1 || (decide (a.2.1 = b.2.1) && pathLtB a.2.2 b.2.2)))

/-- `find_adjacent_to` of pathfinder.py: `none` models the Python `None`
result, `some path` a usable (always non-empty) path. -/
def find_adjacent_to (grid : Grid) (target : Pos) (ut : UnitType) (start : Pos)
    (occupied : List Pos) : Option (List Pos) :=
  let reachable := find_reachable grid start ut occupied none
  let candidates := (neighbors target.1 target.2 20 20).filterMap
    (fun np =>
      match alistGet reachable np with
      | some (cost, p :: ps) => some (cost, np, p :: ps)
      | _ => none)
  match pySort (fun a b => !(candLtB b a)) candidates with
  | [] => none
  | c :: _ => some c.2.2

-- ── state.py (data model) ──────────────────────────────────────────

/-- `Unit` of state.py (named `BUnit` here because `Unit` is taken by Lean). -/
structure BUnit where
  unit_id : ℤ
  player_id : ℤ
  unit_type : UnitType
  x : ℤ
  y : ℤ
  hp : ℤ
  is_alive : Bool
  last_moved_round : ℤ
  last_acted_round : ℤ
deriving DecidableEq, Repr

/-- `Building` of state.py. -/
structure Building where
  x : ℤ
  y : ℤ
  building_type : String
  player_id : ℤ
  capture_progress : ℤ
deriving DecidableEq, Repr

/-- `GameInfo` of state.py. -/
structure GameInfo where
  game_id : ℤ
  name : String
  state : String
  current_player : ℤ
  round : ℤ
  map_id : ℤ
  winner : ℤ
  player_count : ℤ
deriving DecidableEq, Repr

/-- `GameState` of state.py. -/
structure GameState where
  info : GameInfo
  units : List BUnit
  buildings : List Building
  grid : Grid
deriving DecidableEq, Repr

/-- Body of `GameState.alive_units`, factored over the unit list (the only
field the method reads). -/
def alive_units_of (units : List BUnit) (player_id : ℤ) : List BUnit :=
  units.filter (fun u => decide (u.player_id = player_id) && u.is_alive)

/-- Body of `GameState.enemy_units`. -/
def enemy_units_of (units : List BUnit) (player_id : ℤ) : List BUnit :=
  units.filter (fun u => decide (u.player_id ≠ player_id) && u.is_alive)

/-- Body of `GameState.get_hq`: first HQ building of the given player. -/
def get_hq_of (buildings : List Building) (player_id : ℤ) : Option Pos :=
  (buildings.find? (fun b =>
    decide (b.building_type = "HQ") && decide (b.player_id = player_id))).map
    (fun b => (b.x, b.y))

/-- Body of `GameState.occupied_positions`.  The Python method returns a
set; the planner uses it only through membership, removal and insertion, for
which this list is an exact model. -/
def occupied_positions_of (units : List BUnit) : List Pos :=
  (units.filter (fun u => u.is_alive)).map (fun u => (u.x, u.y))

def GameState.alive_units (gs : GameState) (player_id : ℤ) : List BUnit :=
  alive_units_of gs.units player_id

def GameState.enemy_units (gs : GameState) (player_id : ℤ) : List BUnit :=
  enemy_units_of gs.units player_id

def GameState.get_hq (gs : GameState) (player_id : ℤ) : Option Pos :=
  get_hq_of gs.buildings player_id

def GameState.occupied_positions (gs : GameState) : List Pos :=
  occupied_positions_of gs.units

/-- Python set removal `occupied - {p}` / `occupied.discard(p)`. -/
def occDiscard (occ : List Pos) (p : Pos) : List Pos :=
  occ.filter (fun q => decide (q ≠ p))

/-- Python set insertion `occupied.add(p)` (membership-equivalent). -/
def occAdd (occ : List Pos) (p : Pos) : List Pos := occ ++ [p]

-- ── strategy.py ────────────────────────────────────────────────────

/-- `Strategy` of strategy.py.  The float weights are embedded as exact
rationals; the purely documentary `description` field is omitted, and the
role-allocation fields `flank_ratio` / `screen_ratio` of the source are
spelled `flank_frac` / `screen_frac` here. -/
structure Strategy where
  name : String
  aggression : ℚ
  focus_fire : ℚ
  retreat_threshold : ℚ
  terrain_weight : ℚ
  hq_pressure : ℚ
  formation : ℚ
  flank_frac : ℚ
  screen_frac : ℚ
deriving DecidableEq, Repr

def DEATHBALL : Strategy :=
  { name := "Deathball", aggression := 6/10, focus_fire := 1,
    retreat_threshold := 4/10, terrain_weight := 15/10, hq_pressure := 3/10,
    formation := 1, flank_frac := 0, screen_frac := 0 }

def TURTLE : Strategy :=
  { name := "Turtle", aggression := 15/100, focus_fire := 8/10,
    retreat_threshold := 7/10, terrain_weight := 25/10, hq_pressure := 1/10,
    formation := 8/10, flank_frac := 0, screen_frac := 0 }

def GUERRILLA : Strategy :=
  { name := "Guerrilla", aggression := 5/10, focus_fire := 6/10,
    retreat_threshold := 5/10, terrain_weight := 1, hq_pressure := 8/10,
    formation := 2/10, flank_frac := 4/10, screen_frac := 0 }

def RUSH : Strategy :=
  { name := "Rush", aggression := 1, focus_fire := 3/10,
    retreat_threshold := 1/10, terrain_weight := 0, hq_pressure := 1,
    formation := 3/10, flank_frac := 6/10, screen_frac := 0 }

def RANGER_FORTRESS : Strategy :=
  { name := "Ranger Fortress", aggression := 3/10, focus_fire := 9/10,
    retreat_threshold := 6/10, terrain_weight := 2, hq_pressure := 2/10,
    formation := 9/10, flank_frac := 0, screen_frac := 3/10 }

def ASSASSIN : Strategy :=
  { name := "Assassin", aggression := 9/10, focus_fire := 1,
    retreat_threshold := 2/10, terrain_weight := 5/10, hq_pressure := 2/10,
    formation := 6/10, flank_frac := 0, screen_frac := 0 }

def ALL_STRATEGIES : List Strategy :=
  [DEATHBALL, TURTLE, GUERRILLA, RUSH, RANGER_FORTRESS, ASSASSIN]

/-- `STRATEGY_WEIGHTS.get(n, dflt)` of strategy.py. -/
def STRATEGY_WEIGHTS_get (n : String) (dflt : ℕ) : ℕ :=
  if n = "Deathball" then 3
  else if n = "Turtle" then 2
  else if n = "Guerrilla" then 3
  else if n = "Rush" then 1
  else if n = "Ranger Fortress" then 2
  else if n = "Assassin" then 1
  else dflt

/-- The model of `random.Random(seed)`: a deterministic stream of naturals
indexed by the seed and by the position of the draw in the instance's draw
sequence.  The Python Mersenne Twister is such a function of the seed; its
concrete values are opaque here, and every universally quantified theorem
below holds for every stream. -/
abbrev PyRng := ℤ → ℕ → ℕ

/-- Model of `Random.random()`: the k-th draw of the seeded instance,
mapped into [0, 1). -/
def pyRandom (rng : PyRng) (seed : ℤ) (k : ℕ) : ℚ :=
  ((rng seed k % 2 ^ 53 : ℕ) : ℚ) / 2 ^ 53

/-- Model of `Random.choice(pool)`: the k-th draw selects an index. -/
def pyChoice {α : Type} (rng : PyRng) (seed : ℤ) (k : ℕ) (pool : List α)
    (dflt : α) : α :=
  pool.getD (rng seed k % pool.length) dflt

/-- The weighted pool built inside `pick_strategy`. -/
def strategyPool : List Strategy :=
  ALL_STRATEGIES.foldl
    (fun acc s => acc ++ List.replicate (STRATEGY_WEIGHTS_get s.name 1) s) []

/-- `pick_strategy` of strategy.py: a fresh `random.Random(game_id * 10 +
player_id)` whose first draw picks from the weighted pool. -/
def pick_strategy (rng : PyRng) (game_id player_id : ℤ) : Strategy :=
  pyChoice rng (game_id * 10 + player_id) 0 strategyPool DEATHBALL

/-- `pick_strategy_adaptive` of strategy.py, factored over the fields of
`game_state` that it reads (its unit list, round and game id).  The draw
index passed to the stream counts how many draws the seeded instance has
already produced on the taken control path, exactly as the Python instance
state does.  The unused local `my_infantry` of the source is omitted. -/
def pick_strategy_adaptive (rng : PyRng) (units : List BUnit)
    (round game_id player_id : ℤ) : Strategy :=
  let my_units := alive_units_of units player_id
  let enemies := enemy_units_of units player_id
  if enemies.isEmpty then RUSH
  else
    let my_count := my_units.length
    let enemy_count := enemies.length
    let my_rangers := (my_units.filter (fun u => decide (u.unit_type = Ranger))).length
    let my_tanks := (my_units.filter (fun u => decide (u.unit_type = Tank))).length
    let enemy_rangers := (enemies.filter (fun u => decide (u.unit_type = Ranger))).length
    let s := game_id * 10 + player_id + round
    if my_count ≥ enemy_count + 3 ∧ pyRandom rng s 0 < 1/2 then TURTLE
    else
      let k1 : ℕ := if my_count ≥ enemy_count + 3 then 1 else 0
      if enemy_count ≥ my_count + 3 then pyChoice rng s k1 [GUERRILLA, RUSH] RUSH
      else
        if my_rangers ≥ 2 ∧ my_tanks ≥ 1 ∧ pyRandom rng s k1 < 4/10 then
          RANGER_FORTRESS
        else
          let k2 := if my_rangers ≥ 2 ∧ my_tanks ≥ 1 then k1 + 1 else k1
          if enemy_rangers = 0 ∧ pyRandom rng s k2 < 4/10 then DEATHBALL
          else
            let k3 := if enemy_rangers = 0 then k2 + 1 else k2
            if round ≥ 12 ∧ ((my_count : ℤ) - (enemy_count : ℤ)).natAbs ≤ 1 ∧
                pyRandom rng s k3 < 3/10 then ASSASSIN
            else pick_strategy rng game_id player_id

-- ── planner.py: actions and threat map ─────────────────────────────

/-- The tagged action variants (`MoveAction`, `AttackAction`,
`CaptureAction`, `WaitAction`, `EndTurnAction` dataclasses of planner.py;
named `PAction` because Mathlib already declares `Action`). -/
inductive PAction
  | move (unit_id : ℤ) (path : List Pos)
  | attack (unit_id target_id : ℤ)
  | capture (unit_id : ℤ)
  | wait (unit_id : ℤ)
  | endTurn
deriving DecidableEq, Repr

/-- Python `range(-max_r, max_r + 1)`. -/
def intRange (lo hi : ℤ) : List ℤ :=
  (List.range (hi - lo + 1).toNat).map (fun i => lo + (i : ℤ))

/-- `_tiles_in_attack_range` of planner.py. -/
def tiles_in_attack_range (pos : Pos) (a : ARange) (w h : ℤ) : List Pos :=
  let min_r := arLo a
  let max_r := arHi a
  (intRange (-(max_r : ℤ)) max_r).flatMap (fun dx =>
    (intRange (-(max_r : ℤ)) max_r).filterMap (fun dy =>
      let d := dx.natAbs + dy.natAbs
      if min_r ≤ d ∧ d ≤ max_r then
        let nx := pos.1 + dx
        let ny := pos.2 + dy
        if 0 ≤ nx ∧ nx < w ∧ 0 ≤ ny ∧ ny < h then some (nx, ny) else none
      else none))

/-- `build_danger_map` of planner.py, factored over the grid (the only
field of `game_state` it reads).  The danger dict is only ever read back
pointwise, never iterated, so the association-list representation is an
exact model. -/
def build_danger_map (grid : Grid) (enemies : List BUnit) : List (Pos × ℤ) :=
  enemies.foldl
    (fun danger enemy =>
      let epos : Pos := (enemy.x, enemy.y)
      let atk := UNIT_ATK enemy.unit_type
      let a_range := ATTACK_RANGE enemy.unit_type
      let reachable := find_reachable grid epos enemy.unit_type [] none
      reachable.foldl
        (fun danger tileEntry =>
          (tiles_in_attack_range tileEntry.1 a_range 20 20).foldl
            (fun danger tpos =>
              let defense := TERRAIN_DEFENSE_get (gridAt grid tpos) 0
              let dmg := max (atk - defense) 1
              alistSet danger tpos ((alistGet danger tpos).getD 0 + dmg))
            danger)
        danger)
    []

-- ── planner.py: focus-fire ordering ────────────────────────────────

/-- Python `int()` truncation toward zero on a float (rational) value,
written with natural division so that it evaluates by kernel reduction. -/
def pytrunc (q : ℚ) : ℤ :=
  if q.num < 0 then -(((-q.num).toNat / q.den : ℕ) : ℤ)
  else ((q.num.toNat / q.den : ℕ) : ℤ)

/-- Python `<` on the `(score, unit_id, e)` tuples of
`_assign_focus_targets` (comparison never reaches the dataclass field when
unit ids are distinct). -/
def scoredLtB (a b : ℚ × ℤ × BUnit) : Bool :=
  decide (a.1 < b.1) || (decide (a.1 = b.1) && decide (a.2.1 < b.2.1))

/-- `_assign_focus_targets` of planner.py (its `game_state` parameter is
unread and omitted). -/
def assign_focus_targets (my_units enemies : List BUnit) (strat : Strategy) :
    List BUnit :=
  if enemies.isEmpty then []
  else
    let cx : ℚ := (my_units.map (fun u => (u.x : ℚ))).sum / my_units.length
    let cy : ℚ := (my_units.map (fun u => (u.y : ℚ))).sum / my_units.length
    let scored := enemies.map (fun e =>
      let threat := UNIT_ATK e.unit_type
      let dist := manhattan (e.x, e.y) (pytrunc cx, pytrunc cy)
      let hp_weight := 10 * strat.focus_fire
      let dist_weight := 5 * (1 - strat.focus_fire)
      let score : ℚ := (e.hp : ℚ) * hp_weight + (dist : ℚ) * dist_weight
        - (threat : ℚ) * 2
      (score, e.unit_id, e))
    (pySort (fun a b => !(scoredLtB b a)) scored).map (fun s => s.2.2)

/-- Python `<` on the `(-value, hp, unit_id, e)` tuples of
`_assign_assassin_targets`. -/
def assassinLtB (a b : ℤ × ℤ × ℤ × BUnit) : Bool :=
  decide (a.1 < b.1) ||
    (decide (a.1 = b.1) &&
      (decide (a.2.1 < b.2.1) ||
        (decide (a.2.1 = b.2.1) && decide (a.2.2.1 < b.2.2.1))))

/-- `_assign_assassin_targets` of planner.py (its `game_state` parameter is
unread and omitted). -/
def assign_assassin_targets (enemies : List BUnit) : List BUnit :=
  if enemies.isEmpty then []
  else
    let scored := enemies.map (fun e =>
      let v : ℤ := match e.unit_type with
        | Tank => 30
        | Ranger => 20
        | Infantry => 10
      (-v, e.hp, e.unit_id, e))
    (pySort (fun a b => !(assassinLtB b a)) scored).map (fun s => s.2.2.2)

-- ── planner.py: shared helpers ─────────────────────────────────────

/-- `in_attack_range` of planner.py. -/
def in_attack_range (ut : UnitType) (attacker_pos target_pos : Pos) : Bool :=
  let dist := manhattan attacker_pos target_pos
  match ATTACK_RANGE ut with
  | .band lo hi => decide (lo ≤ dist ∧ dist ≤ hi)
  | .single r => decide (dist = r)

/-- The per-turn overkill ledger `already_targeted`: unit id of the target
mapped to the cumulative expected damage recorded against it. -/
abbrev Ledger := List (ℤ × ℤ)

/-- `already_targeted.get(uid, 0)`. -/
def ledGet (l : Ledger) (uid : ℤ) : ℤ := (alistGet l uid).getD 0

/-- `_pick_focus_target_in_range` of planner.py: the first target of the
focus list that is alive, not yet ledger-killed and in attack range.  The
trailing "opportunistic" block of the source is dead code (its loop body is
`pass` and it falls through to `return None`), so the `game_state` and
`strat` parameters are unread and omitted here. -/
def pick_focus_target_in_range (unit : BUnit) (unit_pos : Pos)
    (targets : List BUnit) (already_targeted : Ledger) : Option BUnit :=
  targets.find? (fun t =>
    t.is_alive && !decide (t.hp ≤ ledGet already_targeted t.unit_id) &&
      in_attack_range unit.unit_type unit_pos (t.x, t.y))

/-- `_record_attack` of planner.py. -/
def record_attack (unit target : BUnit) (grid : Grid)
    (already_targeted : Ledger) : Ledger :=
  let defense := TERRAIN_DEFENSE_get (gridAt grid (target.x, target.y)) 0
  let dmg := max (UNIT_ATK unit.unit_type - defense) 1
  alistSet already_targeted target.unit_id
    (ledGet already_targeted target.unit_id + dmg)

/-- `_append_wait_if_safe` of planner.py: returns the action list with the
trailing Wait appended, or unchanged when the just-attacked target is
predicted to survive and to retaliate lethally. -/
def append_wait_if_safe (actions : List PAction) (unit : BUnit) (pos : Pos)
    (last_target : Option BUnit) (grid : Grid) (already_targeted : Ledger) :
    List PAction :=
  if actions.isEmpty then actions ++ [.wait unit.unit_id]
  else
    match last_target with
    | some t =>
      if t.is_alive then
        if 0 < t.hp - ledGet already_targeted t.unit_id then
          let our_def := TERRAIN_DEFENSE_get (gridAt grid pos) 0
          let counter_dmg := max (UNIT_ATK t.unit_type - our_def) 1
          if unit.hp ≤ counter_dmg then actions
          else actions ++ [.wait unit.unit_id]
        else actions ++ [.wait unit.unit_id]
      else actions ++ [.wait unit.unit_id]
    | none => actions ++ [.wait unit.unit_id]

/-- Python `min(l, key=key)`: first minimum (never called on an empty list
by the source; the default is arbitrary). -/
def argminBy {α : Type} (l : List α) (key : α → ℕ) (dflt : α) : α :=
  match l with
  | [] => dflt
  | x :: xs => xs.foldl (fun best y => if key y < key best then y else best) x

-- ── planner.py: role planners ──────────────────────────────────────

/-- The triage test of `plan_turn` (planner.py lines 208-223): a remaining
unit retreats when its hit-point fraction is at or below the preset's
retreat threshold, projected incoming danger at its cell is positive and at
least its hit points, and it is not at full health. -/
def should_retreat (danger_map : List (Pos × ℤ)) (strat : Strategy)
    (unit : BUnit) : Bool :=
  let upos : Pos := (unit.x, unit.y)
  let incoming := (alistGet danger_map upos).getD 0
  let max_hp := UNIT_HP unit.unit_type
  let hp_frac : ℚ := (unit.hp : ℚ) / (max_hp : ℚ)
  decide (hp_frac ≤ strat.retreat_threshold) && decide (0 < incoming) &&
    decide (unit.hp ≤ incoming) && decide (unit.hp < max_hp)

/-- `_plan_flanker` of planner.py (its unread `enemies` and `strat`
parameters are kept; `game_state` is narrowed to the grid, its only read
field).  A tile whose true distance to the HQ is missing scores float
infinity in Python and is never selected (`inf < inf` and `inf < finite`
are both false), which the `none => acc` arm models. -/
def plan_flanker (unit : BUnit) (unit_pos : Pos) (enemy_hq : Option Pos)
    (_enemies : List BUnit) (grid : Grid) (occupied : List Pos)
    (danger_map : List (Pos × ℤ)) (_strat : Strategy) : List PAction × Pos :=
  match enemy_hq with
  | none => ([.wait unit.unit_id], unit_pos)
  | some hq =>
    if unit_pos = hq ∧ (unit.unit_type = Infantry ∨ unit.unit_type = Ranger) then
      ([.capture unit.unit_id], unit_pos)
    else
      let occ := occDiscard occupied unit_pos
      let reachable := find_reachable grid unit_pos unit.unit_type occ none
      let true_dist := full_path_distance grid (0, 0) hq unit.unit_type
      let best := reachable.foldl
        (fun (acc : Option (ℚ × Pos × List Pos)) item =>
          if item.2.2 = [] then acc
          else
            match alistGet true_dist item.1 with
            | none => acc
            | some d =>
              let tile_danger := (alistGet danger_map item.1).getD 0
              let defense := TERRAIN_DEFENSE_get (gridAt grid item.1) 0
              let score : ℚ := (d : ℚ) * 2 +
                ((tile_danger : ℚ) - (defense : ℚ)) * (1/2)
              match acc with
              | none => some (score, item.1, item.2.2)
              | some a => if score < a.1 then some (score, item.1, item.2.2) else acc)
        none
      match best with
      | some (_, tile, path) =>
        if tile ≠ unit_pos then
          ([PAction.move unit.unit_id path] ++
            (if tile = hq ∧ (unit.unit_type = Infantry ∨ unit.unit_type = Ranger)
             then [PAction.capture unit.unit_id] else []) ++
            [PAction.wait unit.unit_id], tile)
        else ([.wait unit.unit_id], unit_pos)
      | none => ([.wait unit.unit_id], unit_pos)

/-- `_retreat_score` of planner.py. -/
def retreat_score (tile : Pos) (danger_map : List (Pos × ℤ)) (grid : Grid)
    (enemy_center : ℚ × ℚ) (my_hq : Option Pos) (strat : Strategy) : ℚ :=
  let d := (alistGet danger_map tile).getD 0
  let defense := TERRAIN_DEFENSE_get (gridAt grid tile) 0
  let dist_enemy := manhattan tile (pytrunc enemy_center.1, pytrunc enemy_center.2)
  let score : ℚ := (d : ℚ) - (defense : ℚ) * strat.terrain_weight
  match my_hq with
  | some hq =>
    if strat.aggression < 3/10 then score + (manhattan tile hq : ℚ) * (1/2)
    else score - (dist_enemy : ℚ) * (3/10)
  | none => score - (dist_enemy : ℚ) * (3/10)

/-- `_plan_retreat` of planner.py. -/
def plan_retreat (unit : BUnit) (unit_pos : Pos) (enemies : List BUnit)
    (danger_map : List (Pos × ℤ)) (grid : Grid) (occupied : List Pos)
    (my_hq : Option Pos) (strat : Strategy) : List PAction × Pos :=
  let occ := occDiscard occupied unit_pos
  let reachable := find_reachable grid unit_pos unit.unit_type occ none
  let enemy_center : ℚ × ℚ :=
    ((enemies.map (fun e => (e.x : ℚ))).sum / enemies.length,
     (enemies.map (fun e => (e.y : ℚ))).sum / enemies.length)
  let bestPair := reachable.foldl
    (fun (acc : ℚ × Pos) item =>
      if item.2.2 = [] then acc
      else
        let score := retreat_score item.1 danger_map grid enemy_center my_hq strat
        if score < acc.1 then (score, item.1) else acc)
    (retreat_score unit_pos danger_map grid enemy_center my_hq strat, unit_pos)
  let best_tile := bestPair.2
  if best_tile ≠ unit_pos then
    let path := ((alistGet reachable best_tile).map (fun cp => cp.2)).getD []
    ([.move unit.unit_id path, .wait unit.unit_id], best_tile)
  else ([.wait unit.unit_id], unit_pos)

/-- `_best_advance_tile` of planner.py (`game_state` narrowed to the grid).
The `none => acc` arm models the source's explicit `continue` on a tile
with infinite true distance. -/
def best_advance_tile (reachable : Reach) (goal_pos : Pos) (grid : Grid)
    (danger_map : List (Pos × ℤ)) (ut : UnitType) (strat : Strategy) :
    Option (Pos × List Pos) :=
  let true_dist := full_path_distance grid (0, 0) goal_pos ut
  (reachable.foldl
    (fun (acc : Option (ℚ × Pos × List Pos)) item =>
      if item.2.2 = [] then acc
      else
        match alistGet true_dist item.1 with
        | none => acc
        | some d =>
          let defense := TERRAIN_DEFENSE_get (gridAt grid item.1) 0
          let tile_danger := (alistGet danger_map item.1).getD 0
          let score : ℚ := (d : ℚ) * (2 - strat.aggression)
            - (defense : ℚ) * strat.terrain_weight
            + (tile_danger : ℚ) * (1/2 - strat.aggression * (3/10))
          match acc with
          | none => some (score, item.1, item.2.2)
          | some a => if score < a.1 then some (score, item.1, item.2.2) else acc)
    none).map (fun a => a.2)

/-- `_plan_melee` of planner.py.  The mutated `already_targeted` dict is
returned explicitly. -/
def plan_melee (unit : BUnit) (unit_pos : Pos) (enemies focus_order : List BUnit)
    (grid : Grid) (occupied : List Pos) (already_targeted : Ledger)
    (danger_map : List (Pos × ℤ)) (strat : Strategy) :
    List PAction × Pos × Ledger :=
  match pick_focus_target_in_range unit unit_pos focus_order already_targeted with
  | some target =>
    let led := record_attack unit target grid already_targeted
    (append_wait_if_safe [.attack unit.unit_id target.unit_id] unit unit_pos
      (some target) grid led, unit_pos, led)
  | none =>
    if strat.aggression < 3/10 ∧ 1 ≤ TERRAIN_DEFENSE_get (gridAt grid unit_pos) 0 then
      ([.wait unit.unit_id], unit_pos, already_targeted)
    else
      let primary := focus_order.headD (enemies.headD unit)
      let primary_pos : Pos := (primary.x, primary.y)
      let occ := occDiscard occupied unit_pos
      match find_adjacent_to grid primary_pos unit.unit_type unit_pos occ with
      | some path =>
        let new_pos := path.getLastD unit_pos
        let acts := [PAction.move unit.unit_id path]
        match pick_focus_target_in_range unit new_pos focus_order already_targeted with
        | some target =>
          let led := record_attack unit target grid already_targeted
          (append_wait_if_safe (acts ++ [.attack unit.unit_id target.unit_id])
            unit new_pos none grid led, new_pos, led)
        | none =>
          (append_wait_if_safe acts unit new_pos none grid already_targeted,
            new_pos, already_targeted)
      | none =>
        let reachable := find_reachable grid unit_pos unit.unit_type occ none
        match best_advance_tile reachable primary_pos grid danger_map
            unit.unit_type strat with
        | some (tile, r_path) =>
          (append_wait_if_safe [.move unit.unit_id r_path] unit tile none grid
            already_targeted, tile, already_targeted)
        | none =>
          (append_wait_if_safe [] unit unit_pos none grid already_targeted,
            unit_pos, already_targeted)

/-- `_plan_ranger` of planner.py.  The Python initial best score `(inf,)`
compares greater than every candidate triple, which the `none` accumulator
models; the final `else` branch (advance via `best_move_toward`) is shared
by the two no-reposition cases through a thunk, evaluated only when taken,
as in the source. -/
def plan_ranger (unit : BUnit) (unit_pos : Pos) (enemies focus_order : List BUnit)
    (grid : Grid) (occupied : List Pos) (already_targeted : Ledger)
    (danger_map : List (Pos × ℤ)) (strat : Strategy) :
    List PAction × Pos × Ledger :=
  match pick_focus_target_in_range unit unit_pos focus_order already_targeted with
  | some target =>
    let led := record_attack unit target grid already_targeted
    (append_wait_if_safe [.attack unit.unit_id target.unit_id] unit unit_pos
      (some target) grid led, unit_pos, led)
  | none =>
    let primary := focus_order.headD (enemies.headD unit)
    let primary_pos : Pos := (primary.x, primary.y)
    let occ := occDiscard occupied unit_pos
    let reachable := find_reachable grid unit_pos unit.unit_type occ none
    let a_lo := arLo (ATTACK_RANGE Ranger)
    let a_hi := arHi (ATTACK_RANGE Ranger)
    let best := reachable.foldl
      (fun (acc : Option ((ℕ × ℚ × ℕ) × Pos × List Pos)) item =>
        if item.2.2 = [] then acc
        else
          let d := manhattan item.1 primary_pos
          let in_range_flag : ℕ := if a_lo ≤ d ∧ d ≤ a_hi then 0 else 1
          let defense := TERRAIN_DEFENSE_get (gridAt grid item.1) 0
          let tile_danger : ℚ := (((alistGet danger_map item.1).getD 0 : ℤ) : ℚ)
            - (defense : ℚ) * strat.terrain_weight
          let score := (in_range_flag, tile_danger, d)
          match acc with
          | none => some (score, item.1, item.2.2)
          | some a =>
            if score.1 < a.1.1 ∨ (score.1 = a.1.1 ∧ (score.2.1 < a.1.2.1 ∨
                (score.2.1 = a.1.2.1 ∧ score.2.2 < a.1.2.2))) then
              some (score, item.1, item.2.2)
            else acc)
      none
    let fallback := fun (_ : Unit) =>
      match best_move_toward grid unit_pos primary_pos unit.unit_type occ with
      | [] => (append_wait_if_safe [] unit unit_pos none grid already_targeted,
          unit_pos, already_targeted)
      | p :: ps =>
        let new_pos := (p :: ps).getLastD unit_pos
        (append_wait_if_safe [.move unit.unit_id (p :: ps)] unit new_pos none
          grid already_targeted, new_pos, already_targeted)
    match best with
    | some (_, tile, path) =>
      if tile ≠ unit_pos then
        let new_pos := tile
        let acts := [PAction.move unit.unit_id path]
        match pick_focus_target_in_range unit new_pos focus_order already_targeted with
        | some target =>
          let led := record_attack unit target grid already_targeted
          (append_wait_if_safe (acts ++ [.attack unit.unit_id target.unit_id])
            unit new_pos none grid led, new_pos, led)
        | none =>
          (append_wait_if_safe acts unit new_pos none grid already_targeted,
            new_pos, already_targeted)
      else fallback ()
    | none => fallback ()

/-- `_plan_combat_unit` of planner.py: dispatch on the unit type. -/
def plan_combat_unit (unit : BUnit) (unit_pos : Pos)
    (enemies focus_order : List BUnit) (grid : Grid) (occupied : List Pos)
    (already_targeted : Ledger) (danger_map : List (Pos × ℤ))
    (strat : Strategy) : List PAction × Pos × Ledger :=
  if unit.unit_type = Ranger then
    plan_ranger unit unit_pos enemies focus_order grid occupied
      already_targeted danger_map strat
  else
    plan_melee unit unit_pos enemies focus_order grid occupied
      already_targeted danger_map strat

/-- `_plan_screener` of planner.py.  The float constants 0.6 / 0.4 of the
intercept midpoint are embedded as exact rationals; no proved fact depends
on the midpoint's value. -/
def plan_screener (unit : BUnit) (unit_pos : Pos)
    (enemies my_units : List BUnit) (grid : Grid) (occupied : List Pos)
    (already_targeted : Ledger) (danger_map : List (Pos × ℤ))
    (strat : Strategy) : List PAction × Pos × Ledger :=
  match pick_focus_target_in_range unit unit_pos enemies already_targeted with
  | some target =>
    let led := record_attack unit target grid already_targeted
    (append_wait_if_safe [.attack unit.unit_id target.unit_id] unit unit_pos
      (some target) grid led, unit_pos, led)
  | none =>
    let rangers := my_units.filter (fun u => decide (u.unit_type = Ranger) && u.is_alive)
    if rangers.isEmpty then
      plan_melee unit unit_pos enemies enemies grid occupied already_targeted
        danger_map strat
    else
      let nearest_enemy := argminBy enemies (fun e => manhattan unit_pos (e.x, e.y)) unit
      let nearest_ranger := argminBy rangers (fun r => manhattan unit_pos (r.x, r.y)) unit
      let intercept : Pos :=
        (pytrunc ((nearest_enemy.x : ℚ) * (6/10) + (nearest_ranger.x : ℚ) * (4/10)),
         pytrunc ((nearest_enemy.y : ℚ) * (6/10) + (nearest_ranger.y : ℚ) * (4/10)))
      let occ := occDiscard occupied unit_pos
      match best_move_toward grid unit_pos intercept unit.unit_type occ with
      | [] => ([.wait unit.unit_id], unit_pos, already_targeted)
      | p :: ps =>
        let new_pos := (p :: ps).getLastD unit_pos
        let acts := [PAction.move unit.unit_id (p :: ps)]
        match pick_focus_target_in_range unit new_pos enemies already_targeted with
        | some target =>
          let led := record_attack unit target grid already_targeted
          (append_wait_if_safe (acts ++ [.attack unit.unit_id target.unit_id])
            unit new_pos (some target) grid led, new_pos, led)
        | none =>
          (append_wait_if_safe acts unit new_pos none grid already_targeted,
            new_pos, already_targeted)

/-- `_plan_capture_march` of planner.py.  With `enemy_hq = None` the Python
function would pass goal `None` to `best_move_toward`, whose
`full_path_distance` call then raises a `TypeError` when subscripting
`None`; theorems over `plan_turn` therefore assume the enemy HQ exists, and
the value returned in that arm is arbitrary. -/
def plan_capture_march (unit : BUnit) (unit_pos : Pos) (enemy_hq : Option Pos)
    (grid : Grid) (occupied : List Pos) : List PAction × Pos :=
  match enemy_hq with
  | none => ([], unit_pos)
  | some hq =>
    if unit_pos = hq then
      if unit.unit_type = Infantry ∨ unit.unit_type = Ranger then
        ([.capture unit.unit_id], unit_pos)
      else ([], unit_pos)
    else
      let occ := occDiscard occupied unit_pos
      match best_move_toward grid unit_pos hq unit.unit_type occ with
      | [] => ([], unit_pos)
      | p :: ps =>
        let new_pos := (p :: ps).getLastD unit_pos
        ([PAction.move unit.unit_id (p :: ps)] ++
          (if new_pos = hq ∧ (unit.unit_type = Infantry ∨ unit.unit_type = Ranger)
           then [PAction.capture unit.unit_id] else []), new_pos)

-- ── planner.py: plan_turn ──────────────────────────────────────────

/-- One of the per-role `for unit in group:` loops of `plan_turn` for a
role planner that does not touch the overkill ledger (flankers, retreaters,
the capture march): actions are accumulated in order and the occupied
working set records the mover's new position. -/
def phaseLoopP (f : BUnit → Pos → List Pos → List PAction × Pos) :
    List BUnit → List Pos → List PAction × List Pos
  | [], occupied => ([], occupied)
  | u :: rest, occupied =>
    let upos : Pos := (u.x, u.y)
    let r := f u upos occupied
    let occ2 := if r.2 ≠ upos then occAdd (occDiscard occupied upos) r.2
      else occupied
    let t := phaseLoopP f rest occ2
    (r.1 ++ t.1, t.2)

/-- The per-role loop of `plan_turn` for a role planner that threads the
overkill ledger (screeners and the main combat force). -/
def phaseLoopL (f : BUnit → Pos → List Pos → Ledger → List PAction × Pos × Ledger) :
    List BUnit → List Pos → Ledger → List PAction × List Pos × Ledger
  | [], occupied, led => ([], occupied, led)
  | u :: rest, occupied, led =>
    let upos : Pos := (u.x, u.y)
    let r := f u upos occupied led
    let occ2 := if r.2.1 ≠ upos then occAdd (occDiscard occupied upos) r.2.1
      else occupied
    let t := phaseLoopL f rest occ2 r.2.2
    (r.1 ++ t.1, t.2)

/-- `opponent_id = 2 if player_id == 1 else 1` of `plan_turn`. -/
def opponent_of (player_id : ℤ) : ℤ := if player_id = 1 then 2 else 1

/-- Body of `plan_turn` of planner.py, factored over the five pieces of the
snapshot the function reads (its grid, unit list, building list, round and
game id).  All randomness enters through the `rng` stream, the model of the
seeded `random.Random` instances of strategy.py. -/
def plan_turn_core (rng : PyRng) (grid : Grid) (units : List BUnit)
    (buildings : List Building) (round game_id player_id : ℤ) : List PAction :=
  let my_units := alive_units_of units player_id
  let enemies := enemy_units_of units player_id
  let opponent_id := opponent_of player_id
  let enemy_hq := get_hq_of buildings opponent_id
  let my_hq := get_hq_of buildings player_id
  if my_units.isEmpty then [.endTurn]
  else
    let occupied := occupied_positions_of units
    let current_round := round
    let actionable := my_units.filter (fun u => decide (u.last_acted_round < current_round))
    if actionable.isEmpty then [.endTurn]
    else
      let strat := pick_strategy_adaptive rng units round game_id player_id
      if enemies.isEmpty then
        let actionable2 := match enemy_hq with
          | some hq => pySort (fun a b =>
              decide (manhattan (a.x, a.y) hq ≤ manhattan (b.x, b.y) hq)) actionable
          | none => actionable
        let r := phaseLoopP
          (fun u upos occ => plan_capture_march u upos enemy_hq grid occ)
          actionable2 occupied
        r.1 ++ [.endTurn]
      else
        let danger_map := build_danger_map grid enemies
        let focus_order :=
          if strat.name = "Assassin" then assign_assassin_targets enemies
          else assign_focus_targets my_units enemies strat
        let infantry0 := actionable.filter (fun u => decide (u.unit_type = Infantry))
        let others := actionable.filter (fun u => decide (u.unit_type ≠ Infantry))
        let n_flankers := (pytrunc ((infantry0.length : ℚ) * strat.flank_frac)).toNat
        let flankSplit :=
          if 0 < n_flankers ∧ enemy_hq.isSome then
            let ecx : ℚ := (enemies.map (fun e => (e.x : ℚ))).sum / enemies.length
            let ecy : ℚ := (enemies.map (fun e => (e.y : ℚ))).sum / enemies.length
            let sorted := pySort (fun a b =>
              decide (-(manhattanQ (a.x, a.y) (ecx, ecy)) ≤
                -(manhattanQ (b.x, b.y) (ecx, ecy)))) infantry0
            (sorted.take n_flankers, sorted.drop n_flankers)
          else ([], infantry0)
        let flankers := flankSplit.1
        let infantry1 := flankSplit.2
        let n_screeners := (pytrunc ((infantry1.length : ℚ) * strat.screen_frac)).toNat
        let screenSplit :=
          if 0 < n_screeners then
            let sorted := pySort (fun a b => decide (a.hp ≤ b.hp)) infantry1
            (sorted.take n_screeners, sorted.drop n_screeners)
          else ([], infantry1)
        let screeners := screenSplit.1
        let infantry2 := screenSplit.2
        let remaining := infantry2 ++ others
        let tri := remaining.partition (should_retreat danger_map strat)
        let retreaters := tri.1
        let attackers := tri.2
        let p1 := phaseLoopP
          (fun u upos occ => plan_flanker u upos enemy_hq enemies grid occ
            danger_map strat)
          flankers occupied
        let p2 := phaseLoopP
          (fun u upos occ => plan_retreat u upos enemies danger_map grid occ
            my_hq strat)
          retreaters p1.2
        let p3 := phaseLoopL
          (fun u upos occ led => plan_screener u upos enemies my_units grid
            occ led danger_map strat)
          screeners p2.2 []
        let attackers2 := match focus_order with
          | [] => attackers
          | ft :: _ => pySort (fun a b =>
              decide (manhattan (a.x, a.y) (ft.x, ft.y) ≤
                manhattan (b.x, b.y) (ft.x, ft.y))) attackers
        let p4 := phaseLoopL
          (fun u upos occ led => plan_combat_unit u upos enemies focus_order
            grid occ led danger_map strat)
          attackers2 p3.2.1 p3.2.2
        p1.1 ++ p2.1 ++ p3.1 ++ p4.1 ++ [.endTurn]

/-- `plan_turn` of planner.py: the planning entry point on a snapshot.  It
reads only the grid, units, buildings, round and game id of the snapshot,
which `plan_turn_core` makes explicit. -/
def plan_turn (rng : PyRng) (gs : GameState) (player_id : ℤ) : List PAction :=
  plan_turn_core rng gs.grid gs.units gs.buildings gs.info.round
    gs.info.game_id player_id

-- ── executor.py: actions_to_calls ──────────────────────────────────

/-- One multicall entry built by `actions_to_calls` of executor.py; the
string calldata encoding is kept structurally (entrypoint plus its
arguments in order). -/
inductive Call
  | move_unit (game_id unit_id : ℤ) (path : List Pos)
  | attack (game_id unit_id target_id : ℤ)
  | capture (game_id unit_id : ℤ)
  | end_turn (game_id : ℤ)
deriving DecidableEq, Repr

/-- The `isinstance(a, CaptureAction)` test of executor.py. -/
def isCaptureB : PAction → Bool
  | .capture _ => true
  | .move _ _ => false
  | .attack _ _ => false
  | .wait _ => false
  | .endTurn => false

/-- The call built for one action in the main loop of `actions_to_calls`
(`none` when the action contributes no call on that pass). -/
def action_to_call (game_id : ℤ) (has_capture : Bool) : PAction → Option Call
  | .move uid path => some (Call.move_unit game_id uid path)
  | .attack uid tid => some (Call.attack game_id uid tid)
  | .capture _ => none
  | .wait _ => none
  | .endTurn => if has_capture then none else some (Call.end_turn game_id)

/-- The deferred capture pass of `actions_to_calls`. -/
def capture_call (game_id : ℤ) : PAction → Option Call
  | .capture uid => some (Call.capture game_id uid)
  | .move _ _ => none
  | .attack _ _ => none
  | .wait _ => none
  | .endTurn => none

/-- `actions_to_calls` of executor.py: Wait actions produce no call, every
`end_turn` call is dropped when a Capture action is present anywhere in the
list, and all capture calls are appended last. -/
def actions_to_calls (game_id : ℤ) (actions : List PAction) : List Call :=
  let has_capture := actions.any isCaptureB
  actions.filterMap (action_to_call game_id has_capture) ++
    actions.filterMap (capture_call game_id)

-- ── Concrete snapshots used by the scenario theorems ───────────────

/-- A constant-zero pseudo-random stream (any stream works for scenarios
whose control path consumes no draw). -/
def rng0 : PyRng := fun _ _ => 0

/-- A stream whose every draw is 11: in `pick_strategy` it selects index 11
of the 12-element weighted pool, the Assassin preset. -/
def rng11 : PyRng := fun _ _ => 11

/-- An all-grass 20x20 board, the size the live game always uses. -/
def grass20 : Grid := List.replicate 20 (List.replicate 20 TERRAIN_GRASS)

/-- An all-grass 10x10 board (every access the planner performs in the
scenario below stays within it, as it would in Python). -/
def grass10 : Grid := List.replicate 10 (List.replicate 10 TERRAIN_GRASS)

/-- The all-grass 5x5 board of the reachability scenario. -/
def grid5 : Grid := List.replicate 5 (List.replicate 5 TERRAIN_GRASS)

/-- Scenario snapshot: zero enemy units, one friendly Infantry at (5,5),
enemy HQ at (5,7) — two cells away. -/
def gsCapture : GameState :=
  { info := { game_id := 7, name := "g", state := "Playing", current_player := 1,
              round := 1, map_id := 1, winner := 0, player_count := 2 },
    units := [{ unit_id := 1, player_id := 1, unit_type := Infantry,
                x := 5, y := 5, hp := 3, is_alive := true,
                last_moved_round := 0, last_acted_round := 0 }],
    buildings := [{ x := 5, y := 7, building_type := "HQ", player_id := 2,
                    capture_progress := 0 }],
    grid := grass20 }

/-- Scenario snapshot: zero enemy units, one friendly Tank standing on the
enemy HQ. -/
def gsTankHq : GameState :=
  { info := { game_id := 3, name := "g", state := "Playing", current_player := 1,
              round := 1, map_id := 1, winner := 0, player_count := 2 },
    units := [{ unit_id := 4, player_id := 1, unit_type := Tank,
                x := 3, y := 3, hp := 5, is_alive := true,
                last_moved_round := 0, last_acted_round := 0 }],
    buildings := [{ x := 3, y := 3, building_type := "HQ", player_id := 2,
                    capture_progress := 0 }],
    grid := grass20 }

/-- Scenario snapshot: a 1-hp friendly Infantry at (0,0) against an enemy
Ranger at (3,0).  Under the Assassin preset (selected by `rng11`) the
Infantry charges adjacent and attacks although the Ranger's counterattack
damage (3) is lethal to it. -/
def gsCharge : GameState :=
  { info := { game_id := 0, name := "g", state := "Playing", current_player := 1,
              round := 1, map_id := 1, winner := 0, player_count := 2 },
    units := [{ unit_id := 1, player_id := 1, unit_type := Infantry,
                x := 0, y := 0, hp := 1, is_alive := true,
                last_moved_round := 0, last_acted_round := 0 },
              { unit_id := 2, player_id := 2, unit_type := Ranger,
                x := 3, y := 0, hp := 3, is_alive := true,
                last_moved_round := 0, last_acted_round := 0 }],
    buildings := [{ x := 9, y := 9, building_type := "HQ", player_id := 2,
                    capture_progress := 0 }],
    grid := grass10 }

-- ── Pathfinder lemmas ──────────────────────────────────────────────

lemma alistGet_append_left {κ α : Type} [DecidableEq κ] {l l2 : List (κ × α)}
    {k : κ} {v : α} (h : alistGet l k = some v) :
    alistGet (l ++ l2) k = some v := by
  induction l with
  | nil => simp [alistGet] at h
  | cons a as ih =>
    rw [List.cons_append]
    rw [alistGet] at h ⊢
    split at h
    · exact (by simpa using h) ▸ (by simp_all)
    · simp_all

lemma popMin_mem : ∀ {l : List QEntry} {e : QEntry} {rest : List QEntry},
    popMin l = some (e, rest) → e ∈ l ∧ ∀ x ∈ rest, x ∈ l := by
  intro l
  induction l with
  | nil => intro e rest h; simp [popMin] at h
  | cons a as ih =>
    intro e rest h
    rw [popMin] at h
    cases hm : popMin as with
    | none =>
      rw [hm] at h
      simp only [Option.some.injEq, Prod.mk.injEq] at h
      obtain ⟨h1, h2⟩ := h
      subst h1; subst h2
      exact ⟨by simp, by simp⟩
    | some pr =>
      obtain ⟨m, rest2⟩ := pr
      rw [hm] at h
      dsimp only at h
      obtain ⟨hm1, hm2⟩ := ih hm
      by_cases hlt : entryLtB m a = true
      · rw [if_pos hlt] at h
        simp only [Option.some.injEq, Prod.mk.injEq] at h
        obtain ⟨h1, h2⟩ := h
        subst h1; subst h2
        constructor
        · exact List.mem_cons_of_mem _ hm1
        · intro x hx
          rcases List.mem_cons.mp hx with rfl | hx
          · exact List.mem_cons_self _ _
          · exact List.mem_cons_of_mem _ (hm2 x hx)
      · rw [if_neg hlt] at h
        simp only [Option.some.injEq, Prod.mk.injEq] at h
        obtain ⟨h1, h2⟩ := h
        subst h1; subst h2
        exact ⟨List.mem_cons_self _ _, fun x hx => List.mem_cons_of_mem _ hx⟩

lemma frLoop_cost_le (grid : Grid) (ut : UnitType) (occ : List Pos) (mr : ℕ) :
    ∀ (fuel : ℕ) (opens : List QEntry) (best : Reach),
      (∀ e ∈ opens, e.cost ≤ mr) → (∀ x ∈ best, x.2.1 ≤ mr) →
      ∀ x ∈ frLoop grid ut occ mr fuel opens best, x.2.1 ≤ mr := by
  intro fuel
  induction fuel with
  | zero => intro opens best _ hb x hx; rw [frLoop] at hx; exact hb x hx
  | succ f ih =>
    intro opens best ho hb x hx
    rw [frLoop] at hx
    cases hpop : popMin opens with
    | none => rw [hpop] at hx; exact hb x hx
    | some pr =>
      obtain ⟨e, rest⟩ := pr
      rw [hpop] at hx
      dsimp only at hx
      obtain ⟨hem, hrest⟩ := popMin_mem hpop
      have hec : e.cost ≤ mr := ho e hem
      have ho2 : ∀ y ∈ rest, y.cost ≤ mr := fun y hy => ho y (hrest y hy)
      have hb2 : ∀ y ∈ best ++ [(e.pos, e.cost, e.path)], y.2.1 ≤ mr := by
        intro y hy
        rcases List.mem_append.mp hy with hy | hy
        · exact hb y hy
        · simp only [List.mem_singleton] at hy
          subst hy; exact hec
      split at hx
      · exact ih rest best ho2 hb x hx
      · split at hx
        · exact ih rest _ ho2 hb2 x hx
        · refine ih _ _ ?_ hb2 x hx
          intro y hy
          rcases List.mem_append.mp hy with hy | hy
          · exact ho2 y hy
          · obtain ⟨np, _, hf⟩ := List.mem_filterMap.mp hy
            split at hf
            · exact absurd hf (by simp)
            · split at hf
              · exact absurd hf (by simp)
              · rename_i step hstep
                split at hf
                · exact absurd hf (by simp)
                · split at hf
                  · exact absurd hf (by simp)
                  · rename_i hcle hocc
                    injection hf with hf2
                    subst hf2
                    simp only [QEntry.cost]
                    omega

lemma frLoop_get_mono (grid : Grid) (ut : UnitType) (occ : List Pos) (mr : ℕ)
    {k : Pos} {v : ℕ × List Pos} :
    ∀ (fuel : ℕ) (opens : List QEntry) (best : Reach),
      alistGet best k = some v →
      alistGet (frLoop grid ut occ mr fuel opens best) k = some v := by
  intro fuel
  induction fuel with
  | zero => intro opens best h; rw [frLoop]; exact h
  | succ f ih =>
    intro opens best h
    rw [frLoop]
    cases hpop : popMin opens with
    | none => exact h
    | some pr =>
      obtain ⟨e, rest⟩ := pr
      dsimp only
      split
      · exact ih rest best h
      · split
        · exact ih rest _ (alistGet_append_left h)
        · exact ih _ _ (alistGet_append_left h)

-- ── C3 ─────────────────────────────────────────────────────────────

/-- C3 (counterexample): contrary to the claim that the start cell is never
included in the reachable result, `find_reachable` always inserts the start
itself, with cost 0 and an empty path — here on the all-grass 5x5 board
with a Tank (movement budget 2) and no blocked cells. -/
theorem find_reachable_start_in_result :
    alistGet (find_reachable grid5 (0, 0) Tank [] none) (0, 0) =
      some (0, []) := by decide

/-- C3 (amended): for every grid, start, unit type, blocked set and budget,
every entry of the `find_reachable` result has cost at most the budget (the
bound is inclusive), and the start cell is present in the result, with cost
0 and an empty path (callers exclude it through the empty-path test). -/
theorem find_reachable_budget_bound (grid : Grid) (start : Pos) (ut : UnitType)
    (occ : List Pos) (mr : Option ℕ) :
    (∀ x ∈ find_reachable grid start ut occ mr,
      x.2.1 ≤ mr.getD (MOVE_RANGE ut)) ∧
    alistGet (find_reachable grid start ut occ mr) start = some (0, []) := by
  constructor
  · intro x hx
    rw [find_reachable] at hx
    refine frLoop_cost_le grid ut occ _ SEARCH_FUEL _ [] ?_ (by simp) x hx
    intro e he
    rcases List.mem_singleton.mp he with rfl
    exact Nat.zero_le _
  · rw [find_reachable]
    rw [show SEARCH_FUEL = Nat.succ 99999 from rfl, frLoop]
    simp only [popMin, alistGet, Option.isSome_none, Bool.false_eq_true,
      if_false, List.nil_append]
    split
    · exact frLoop_get_mono _ _ _ _ _ _ _ (by simp [alistGet])
    · exact frLoop_get_mono _ _ _ _ _ _ _ (by simp [alistGet])

-- ── C4 ─────────────────────────────────────────────────────────────

/-- C4 (counterexample): on the all-grass 5x5 board with movement range 2
(a Tank) from (0,0), the reachable result holds 6 entries (the start plus
the 5 cells at Manhattan distance 1 or 2 clipped to the board), not the 12
cells the claim asserts. -/
theorem find_reachable_grid5_count :
    (find_reachable grid5 (0, 0) Tank [] none).length = 6 ∧
    ((find_reachable grid5 (0, 0) Tank [] none).filter
      (fun x => !x.2.2.isEmpty)).length = 5 := by decide

/-- C4 (amended): the full evaluation of the scenario — the result is
exactly the start entry (cost 0, empty path) followed by the five cells of
Manhattan distance 1 or 2 clipped to the 5x5 bounds, in Dijkstra insertion
order, and every returned cost equals the Manhattan distance from the
start. -/
theorem find_reachable_grid5_eval :
    find_reachable grid5 (0, 0) Tank [] none =
      [((0, 0), 0, []), ((0, 1), 1, [(0, 1)]), ((1, 0), 1, [(1, 0)]),
       ((0, 2), 2, [(0, 1), (0, 2)]), ((1, 1), 2, [(0, 1), (1, 1)]),
       ((2, 0), 2, [(1, 0), (2, 0)])] ∧
    ∀ x ∈ find_reachable grid5 (0, 0) Tank [] none,
      x.2.1 = manhattan (0, 0) x.1 := by decide

-- ── C6 ─────────────────────────────────────────────────────────────

/-- A 3-hp Tank (melee, max hp 5) used by the triage scenario. -/
def tankHp3 : BUnit :=
  { unit_id := 9, player_id := 1, unit_type := Tank, x := 4, y := 4, hp := 3,
    is_alive := true, last_moved_round := 0, last_acted_round := 0 }

/-- A 3-hp Infantry (melee, max hp 3) used by the triage scenario. -/
def infHp3 : BUnit :=
  { unit_id := 10, player_id := 1, unit_type := Infantry, x := 4, y := 4,
    hp := 3, is_alive := true, last_moved_round := 0, last_acted_round := 0 }

/-- A 2-hp Tank used by the corrected triage scenario. -/
def tankHp2 : BUnit :=
  { unit_id := 11, player_id := 1, unit_type := Tank, x := 4, y := 4, hp := 2,
    is_alive := true, last_moved_round := 0, last_acted_round := 0 }

/-- C6 (counterexample): under the Guerrilla preset (retreat threshold 0.5)
and projected danger 3 at the unit's cell, a melee unit with 3 hit points is
NOT triaged as a retreater, for either melee type: the Tank's hp fraction
3/5 and the Infantry's 3/3 both exceed the 0.5 threshold (and the Infantry
is additionally at full health).  `should_retreat` is the triage test
`plan_turn` partitions the remaining units with. -/
theorem triage_hp3_not_retreater :
    should_retreat [((4, 4), 3)] GUERRILLA tankHp3 = false ∧
    should_retreat [((4, 4), 3)] GUERRILLA infHp3 = false := by decide

/-- C6 (amended): with retreat threshold 0.5 and danger 3, a 3-hp melee
unit is triaged as an attacker (its hit-point fraction exceeds the
threshold); a 2-hp Tank in the same situation is a retreater; and in
general the triage test holds exactly when hp/max ≤ threshold, the danger
at the unit's cell is positive and at least its hp, and the unit is below
full health. -/
theorem triage_threshold_eval :
    should_retreat [((4, 4), 3)] GUERRILLA tankHp3 = false ∧
    should_retreat [((4, 4), 3)] GUERRILLA infHp3 = false ∧
    should_retreat [((4, 4), 3)] GUERRILLA tankHp2 = true ∧
    ∀ (dm : List (Pos × ℤ)) (strat : Strategy) (u : BUnit),
      should_retreat dm strat u = true ↔
        ((u.hp : ℚ) / (UNIT_HP u.unit_type : ℚ) ≤ strat.retreat_threshold ∧
          0 < (alistGet dm (u.x, u.y)).getD 0 ∧
          u.hp ≤ (alistGet dm (u.x, u.y)).getD 0 ∧
          u.hp < UNIT_HP u.unit_type) := by
  refine ⟨by decide, by decide, by decide, ?_⟩
  intro dm strat u
  simp only [should_retreat, Bool.and_eq_true, decide_eq_true_eq]
  tauto

-- ── C2 ─────────────────────────────────────────────────────────────

/-- C2: determinism.  `plan_turn` is a pure function of the snapshot and of
the seeded pseudo-random stream: two calls on snapshots agreeing in grid,
units, buildings, round and game id (the only snapshot fields the planner
reads — in particular no wall-clock or free-running randomness exists in
the model, every draw coming from the stream seeded by game id, player id
and round) return identical action lists, whatever the other fields hold. -/
theorem plan_turn_deterministic (rng : PyRng) (s1 s2 : GameState) (pid : ℤ)
    (hg : s1.grid = s2.grid) (hu : s1.units = s2.units)
    (hb : s1.buildings = s2.buildings) (hr : s1.info.round = s2.info.round)
    (hid : s1.info.game_id = s2.info.game_id) :
    plan_turn rng s1 pid = plan_turn rng s2 pid := by
  rw [plan_turn, plan_turn, hg, hu, hb, hr, hid]

/-- A copy of the capture scenario snapshot with unrelated metadata fields
(name, state, current player, map id, winner) altered. -/
def gsCaptureAlt : GameState :=
  { info := { game_id := 7, name := "other", state := "Weird",
              current_player := 2, round := 1, map_id := 9, winner := 5,
              player_count := 2 },
    units := gsCapture.units,
    buildings := gsCapture.buildings,
    grid := grass20 }

/-- C2 (witness): the determinism theorem applied to two concrete snapshots
differing only in fields the planner does not read. -/
theorem plan_turn_deterministic_witness :
    plan_turn rng0 gsCapture 1 = plan_turn rng0 gsCaptureAlt 1 :=
  plan_turn_deterministic rng0 gsCapture gsCaptureAlt 1 rfl rfl rfl rfl rfl

-- ── Action-shape helper lemmas ─────────────────────────────────────

lemma append_wait_cases (acts : List PAction) (u : BUnit) (pos : Pos)
    (tgt : Option BUnit) (grid : Grid) (led : Ledger) :
    append_wait_if_safe acts u pos tgt grid led = acts ++ [.wait u.unit_id] ∨
    append_wait_if_safe acts u pos tgt grid led = acts := by
  rw [append_wait_if_safe.eq_def]
  split
  · exact Or.inl rfl
  · split
    · split
      · split
        · dsimp only
          split
          · exact Or.inr rfl
          · exact Or.inl rfl
        · exact Or.inl rfl
      · exact Or.inl rfl
    · exact Or.inl rfl

lemma mem_append_wait {a : PAction} {acts : List PAction} {u : BUnit}
    {pos : Pos} {tgt : Option BUnit} {grid : Grid} {led : Ledger}
    (h : a ∈ append_wait_if_safe acts u pos tgt grid led) :
    a ∈ acts ∨ a = .wait u.unit_id := by
  rcases append_wait_cases acts u pos tgt grid led with hc | hc <;> rw [hc] at h
  · rcases List.mem_append.mp h with h | h
    · exact Or.inl h
    · exact Or.inr (List.mem_singleton.mp h)
  · exact Or.inl h

lemma pyInsert_mem {α : Type} {le : α → α → Bool} {x a : α} {l : List α} :
    a ∈ pyInsert le x l ↔ a = x ∨ a ∈ l := by
  induction l with
  | nil => simp [pyInsert]
  | cons y ys ih =>
    rw [pyInsert]
    split
    · simp
    · simp only [List.mem_cons, ih]
      tauto

lemma pySort_mem {α : Type} {le : α → α → Bool} {a : α} {l : List α} :
    a ∈ pySort le l ↔ a ∈ l := by
  induction l with
  | nil => simp [pySort]
  | cons y ys ih => rw [pySort]; rw [pyInsert_mem]; simp [ih]

lemma plan_flanker_mem {u : BUnit} {upos : Pos} {hq : Option Pos}
    {enemies : List BUnit} {grid : Grid} {occ : List Pos}
    {dm : List (Pos × ℤ)} {st : Strategy} {a : PAction}
    (h : a ∈ (plan_flanker u upos hq enemies grid occ dm st).1) :
    a = .wait u.unit_id ∨
    (a = .capture u.unit_id ∧ (u.unit_type = Infantry ∨ u.unit_type = Ranger)) ∨
    (∃ p, a = .move u.unit_id p) := by
  rw [plan_flanker.eq_def] at h
  split at h
  · simp at h; tauto
  · split at h
    · rename_i hg
      simp at h
      exact Or.inr (Or.inl ⟨h, hg.2⟩)
    · dsimp only at h
      split at h
      · split at h
        · rename_i hne
          split at h
          · rename_i hcap
            simp at h
            rcases h with h | h | h
            · exact Or.inr (Or.inr ⟨_, h⟩)
            · exact Or.inr (Or.inl ⟨h, hcap.2⟩)
            · exact Or.inl h
          · simp at h
            rcases h with h | h
            · exact Or.inr (Or.inr ⟨_, h⟩)
            · exact Or.inl h
        · simp at h; tauto
      · simp at h; tauto

lemma plan_retreat_mem {u : BUnit} {upos : Pos} {enemies : List BUnit}
    {dm : List (Pos × ℤ)} {grid : Grid} {occ : List Pos} {hq : Option Pos}
    {st : Strategy} {a : PAction}
    (h : a ∈ (plan_retreat u upos enemies dm grid occ hq st).1) :
    a = .wait u.unit_id ∨ (∃ p, a = .move u.unit_id p) := by
  rw [plan_retreat.eq_def] at h
  dsimp only at h
  split at h
  · simp at h
    rcases h with h | h
    · exact Or.inr ⟨_, h⟩
    · exact Or.inl h
  · simp at h; tauto

lemma plan_capture_march_mem {u : BUnit} {upos : Pos} {hq : Option Pos}
    {grid : Grid} {occ : List Pos} {a : PAction}
    (h : a ∈ (plan_capture_march u upos hq grid occ).1) :
    (a = .capture u.unit_id ∧ (u.unit_type = Infantry ∨ u.unit_type = Ranger)) ∨
    (∃ p, a = .move u.unit_id p) := by
  rw [plan_capture_march.eq_def] at h
  split at h
  · simp at h
  · split at h
    · split at h
      · rename_i hty
        simp at h
        exact Or.inl ⟨h, hty⟩
      · simp at h
    · dsimp only at h
      split at h
      · simp at h
      · split at h
        · rename_i hcap
          simp at h
          rcases h with h | h
          · exact Or.inr ⟨_, h⟩
          · exact Or.inl ⟨h, hcap.2⟩
        · simp at h
          exact Or.inr ⟨_, h⟩

lemma plan_melee_mem {u : BUnit} {upos : Pos} {enemies focus_order : List BUnit}
    {grid : Grid} {occ : List Pos} {led : Ledger} {dm : List (Pos × ℤ)}
    {st : Strategy} {a : PAction}
    (h : a ∈ (plan_melee u upos enemies focus_order grid occ led dm st).1) :
    (∃ tid, a = .attack u.unit_id tid) ∨ (∃ p, a = .move u.unit_id p) ∨
    a = .wait u.unit_id := by
  rw [plan_melee.eq_def] at h
  split at h
  · dsimp only at h
    rcases mem_append_wait h with h | h
    · simp at h; exact Or.inl ⟨_, h⟩
    · tauto
  · split at h
    · simp at h; tauto
    · dsimp only at h
      split at h
      · split at h
        · dsimp only at h
          rcases mem_append_wait h with h | h
          · simp at h
            rcases h with h | h
            · exact Or.inr (Or.inl ⟨_, h⟩)
            · exact Or.inl ⟨_, h⟩
          · tauto
        · dsimp only at h
          rcases mem_append_wait h with h | h
          · simp at h; exact Or.inr (Or.inl ⟨_, h⟩)
          · tauto
      · split at h
        · dsimp only at h
          rcases mem_append_wait h with h | h
          · simp at h; exact Or.inr (Or.inl ⟨_, h⟩)
          · tauto
        · dsimp only at h
          rcases mem_append_wait h with h | h
          · simp at h
          · tauto

lemma plan_ranger_mem {u : BUnit} {upos : Pos} {enemies focus_order : List BUnit}
    {grid : Grid} {occ : List Pos} {led : Ledger} {dm : List (Pos × ℤ)}
    {st : Strategy} {a : PAction}
    (h : a ∈ (plan_ranger u upos enemies focus_order grid occ led dm st).1) :
    (∃ tid, a = .attack u.unit_id tid) ∨ (∃ p, a = .move u.unit_id p) ∨
    a = .wait u.unit_id := by
  rw [plan_ranger.eq_def] at h
  split at h
  · dsimp only at h
    rcases mem_append_wait h with h | h
    · simp at h; exact Or.inl ⟨_, h⟩
    · tauto
  · dsimp only at h
    split at h
    · split at h
      · split at h
        · dsimp only at h
          rcases mem_append_wait h with h | h
          · simp at h
            rcases h with h | h
            · exact Or.inr (Or.inl ⟨_, h⟩)
            · exact Or.inl ⟨_, h⟩
          · tauto
        · dsimp only at h
          rcases mem_append_wait h with h | h
          · simp at h; exact Or.inr (Or.inl ⟨_, h⟩)
          · tauto
      · split at h
        · dsimp only at h
          rcases mem_append_wait h with h | h
          · simp at h
          · tauto
        · dsimp only at h
          rcases mem_append_wait h with h | h
          · simp at h; exact Or.inr (Or.inl ⟨_, h⟩)
          · tauto
    · split at h
      · dsimp only at h
        rcases mem_append_wait h with h | h
        · simp at h
        · tauto
      · dsimp only at h
        rcases mem_append_wait h with h | h
        · simp at h; exact Or.inr (Or.inl ⟨_, h⟩)
        · tauto

lemma plan_screener_mem {u : BUnit} {upos : Pos} {enemies my_units : List BUnit}
    {grid : Grid} {occ : List Pos} {led : Ledger} {dm : List (Pos × ℤ)}
    {st : Strategy} {a : PAction}
    (h : a ∈ (plan_screener u upos enemies my_units grid occ led dm st).1) :
    (∃ tid, a = .attack u.unit_id tid) ∨ (∃ p, a = .move u.unit_id p) ∨
    a = .wait u.unit_id := by
  rw [plan_screener.eq_def] at h
  split at h
  · dsimp only at h
    rcases mem_append_wait h with h | h
    · simp at h; exact Or.inl ⟨_, h⟩
    · tauto
  · dsimp only at h
    split at h
    · exact plan_melee_mem h
    · split at h
      · simp at h; tauto
      · split at h
        · dsimp only at h
          rcases mem_append_wait h with h | h
          · simp at h
            rcases h with h | h
            · exact Or.inr (Or.inl ⟨_, h⟩)
            · exact Or.inl ⟨_, h⟩
          · tauto
        · dsimp only at h
          rcases mem_append_wait h with h | h
          · simp at h; exact Or.inr (Or.inl ⟨_, h⟩)
          · tauto

lemma plan_combat_unit_mem {u : BUnit} {upos : Pos}
    {enemies focus_order : List BUnit} {grid : Grid} {occ : List Pos}
    {led : Ledger} {dm : List (Pos × ℤ)} {st : Strategy} {a : PAction}
    (h : a ∈ (plan_combat_unit u upos enemies focus_order grid occ led dm st).1) :
    (∃ tid, a = .attack u.unit_id tid) ∨ (∃ p, a = .move u.unit_id p) ∨
    a = .wait u.unit_id := by
  rw [plan_combat_unit.eq_def] at h
  split at h
  · exact plan_ranger_mem h
  · exact plan_melee_mem h

lemma phaseLoopP_mem {f : BUnit → Pos → List Pos → List PAction × Pos}
    {units : List BUnit} {occ : List Pos} {a : PAction}
    (h : a ∈ (phaseLoopP f units occ).1) :
    ∃ u ∈ units, ∃ occ2, a ∈ (f u (u.x, u.y) occ2).1 := by
  induction units generalizing occ with
  | nil => simp [phaseLoopP] at h
  | cons v vs ih =>
    rw [phaseLoopP.eq_def] at h
    dsimp only at h
    rcases List.mem_append.mp h with h | h
    · exact ⟨v, List.mem_cons_self _ _, _, h⟩
    · obtain ⟨u, hu, occ2, hmem⟩ := ih h
      exact ⟨u, List.mem_cons_of_mem _ hu, occ2, hmem⟩

lemma phaseLoopL_mem
    {f : BUnit → Pos → List Pos → Ledger → List PAction × Pos × Ledger}
    {units : List BUnit} {occ : List Pos} {led : Ledger} {a : PAction}
    (h : a ∈ (phaseLoopL f units occ led).1) :
    ∃ u ∈ units, ∃ occ2 led2, a ∈ (f u (u.x, u.y) occ2 led2).1 := by
  induction units generalizing occ led with
  | nil => simp [phaseLoopL] at h
  | cons v vs ih =>
    rw [phaseLoopL.eq_def] at h
    dsimp only at h
    rcases List.mem_append.mp h with h | h
    · exact ⟨v, List.mem_cons_self _ _, _, _, h⟩
    · obtain ⟨u, hu, occ2, led2, hmem⟩ := ih h
      exact ⟨u, List.mem_cons_of_mem _ hu, occ2, led2, hmem⟩

/-- A unit of the alive-units filter is a unit of the snapshot list. -/
lemma mem_alive_sub {units : List BUnit} {pid : ℤ} {u : BUnit}
    (h : u ∈ alive_units_of units pid) : u ∈ units :=
  (List.mem_filter.mp h).1

lemma take_pySort_sub {le : BUnit → BUnit → Bool} {l : List BUnit} {n : ℕ}
    {u : BUnit} (h : u ∈ (pySort le l).take n) : u ∈ l :=
  pySort_mem.mp (List.take_subset _ _ h)

lemma drop_pySort_sub {le : BUnit → BUnit → Bool} {l : List BUnit} {n : ℕ}
    {u : BUnit} (h : u ∈ (pySort le l).drop n) : u ∈ l :=
  pySort_mem.mp (List.drop_subset _ _ h)

/-- Any unit of the actionable pool (alive, not yet acted, possibly further
filtered by type) is a unit of the snapshot. -/
lemma mem_filter_actionable_sub {units : List BUnit} {pid r : ℤ}
    {p : BUnit → Bool} {u : BUnit}
    (h : u ∈ List.filter p
      (List.filter (fun v => decide (v.last_acted_round < r))
        (alive_units_of units pid))) : u ∈ units :=
  mem_alive_sub (List.mem_filter.mp (List.mem_filter.mp h).1).1

/-- The first component of a role split (`take` of a sorted pool when the
split fires, empty otherwise) only holds units of the pool. -/
lemma splitPair_fst_sub {le : BUnit → BUnit → Bool} {l : List BUnit} {n : ℕ}
    {c : Prop} [Decidable c] {u : BUnit}
    (h : u ∈ (if c then ((pySort le l).take n, (pySort le l).drop n)
              else ([], l)).1) : u ∈ l := by
  split at h
  · exact take_pySort_sub h
  · exact absurd h (by simp)

/-- The second component of a role split (`drop` of a sorted pool when the
split fires, the untouched pool otherwise) only holds units of the pool. -/
lemma splitPair_snd_sub {le : BUnit → BUnit → Bool} {l : List BUnit} {n : ℕ}
    {c : Prop} [Decidable c] {u : BUnit}
    (h : u ∈ (if c then ((pySort le l).take n, (pySort le l).drop n)
              else ([], l)).2) : u ∈ l := by
  split at h
  · exact drop_pySort_sub h
  · exact h

/-- The master shape of a planned turn: a block of per-unit actions followed
by exactly one EndTurn, where every action of the block belongs to a unit of
the snapshot, is never an EndTurn, and any Capture is issued to an Infantry
or a Ranger. -/
lemma plan_turn_cases (rng : PyRng) (gs : GameState) (pid : ℤ) :
    ∃ A, plan_turn rng gs pid = A ++ [.endTurn] ∧
      ∀ a ∈ A, ∃ u, u ∈ gs.units ∧
        ((∃ p, a = .move u.unit_id p) ∨ (∃ tid, a = .attack u.unit_id tid) ∨
          a = .wait u.unit_id ∨
          (a = .capture u.unit_id ∧
            (u.unit_type = Infantry ∨ u.unit_type = Ranger))) := by
  rw [plan_turn, plan_turn_core]
  dsimp only
  split
  · exact ⟨[], rfl, by simp⟩
  · split
    · exact ⟨[], rfl, by simp⟩
    · split
      · -- no enemies: capture march
        refine ⟨_, rfl, ?_⟩
        intro a ha
        obtain ⟨u, hu, occ2, hm⟩ := phaseLoopP_mem ha
        have hu2 : u ∈ gs.units := by
          split at hu
          · exact mem_alive_sub (List.mem_filter.mp (pySort_mem.mp hu)).1
          · exact mem_alive_sub (List.mem_filter.mp hu).1
        rcases plan_capture_march_mem hm with ⟨h1, h2⟩ | ⟨p, h1⟩
        · exact ⟨u, hu2, Or.inr (Or.inr (Or.inr ⟨h1, h2⟩))⟩
        · exact ⟨u, hu2, Or.inl ⟨p, h1⟩⟩
      · -- combat phases: (((p1 ++ p2) ++ p3) ++ p4) ++ [EndTurn]
        refine ⟨_, rfl, ?_⟩
        intro a ha
        rcases List.mem_append.mp ha with ha | ha
        · rcases List.mem_append.mp ha with ha | ha
          · rcases List.mem_append.mp ha with ha | ha
            · -- flankers
              obtain ⟨u, hu, occ2, hm⟩ := phaseLoopP_mem ha
              have hu2 : u ∈ gs.units :=
                mem_filter_actionable_sub (splitPair_fst_sub hu)
              rcases plan_flanker_mem hm with h1 | ⟨h1, h2⟩ | ⟨p, h1⟩
              · exact ⟨u, hu2, Or.inr (Or.inr (Or.inl h1))⟩
              · exact ⟨u, hu2, Or.inr (Or.inr (Or.inr ⟨h1, h2⟩))⟩
              · exact ⟨u, hu2, Or.inl ⟨p, h1⟩⟩
            · -- retreaters
              obtain ⟨u, hu, occ2, hm⟩ := phaseLoopP_mem ha
              have hu2 : u ∈ gs.units := by
                rw [List.partition_eq_filter_filter] at hu
                dsimp only at hu
                rcases List.mem_append.mp (List.mem_filter.mp hu).1 with h | h
                · exact mem_filter_actionable_sub
                    (splitPair_snd_sub (splitPair_snd_sub h))
                · exact mem_filter_actionable_sub h
              rcases plan_retreat_mem hm with h1 | ⟨p, h1⟩
              · exact ⟨u, hu2, Or.inr (Or.inr (Or.inl h1))⟩
              · exact ⟨u, hu2, Or.inl ⟨p, h1⟩⟩
          · -- screeners
            obtain ⟨u, hu, occ2, led2, hm⟩ := phaseLoopL_mem ha
            have hu2 : u ∈ gs.units :=
              mem_filter_actionable_sub
                (splitPair_snd_sub (splitPair_fst_sub hu))
            rcases plan_screener_mem hm with ⟨tid, h1⟩ | ⟨p, h1⟩ | h1
            · exact ⟨u, hu2, Or.inr (Or.inl ⟨tid, h1⟩)⟩
            · exact ⟨u, hu2, Or.inl ⟨p, h1⟩⟩
            · exact ⟨u, hu2, Or.inr (Or.inr (Or.inl h1))⟩
        · -- main combat force
          obtain ⟨u, hu, occ2, led2, hm⟩ := phaseLoopL_mem ha
          have hu2 : u ∈ gs.units := by
            split at hu
            · rw [List.partition_eq_filter_filter] at hu
              dsimp only at hu
              rcases List.mem_append.mp (List.mem_filter.mp hu).1 with h | h
              · exact mem_filter_actionable_sub
                  (splitPair_snd_sub (splitPair_snd_sub h))
              · exact mem_filter_actionable_sub h
            · replace hu := pySort_mem.mp hu
              rw [List.partition_eq_filter_filter] at hu
              dsimp only at hu
              rcases List.mem_append.mp (List.mem_filter.mp hu).1 with h | h
              · exact mem_filter_actionable_sub
                  (splitPair_snd_sub (splitPair_snd_sub h))
              · exact mem_filter_actionable_sub h
          rcases plan_combat_unit_mem hm with ⟨tid, h1⟩ | ⟨p, h1⟩ | h1
          · exact ⟨u, hu2, Or.inr (Or.inl ⟨tid, h1⟩)⟩
          · exact ⟨u, hu2, Or.inl ⟨p, h1⟩⟩
          · exact ⟨u, hu2, Or.inr (Or.inr (Or.inl h1))⟩

-- ── C1 ─────────────────────────────────────────────────────────────

/-- C1 (counterexample): in the scenario of the claim — zero enemy units,
one friendly Infantry two cells from the enemy HQ — `plan_turn` returns
Move (path of length 2), Capture AND a trailing EndTurn: the action list of
the planner keeps its EndTurn even when a Capture is present, contradicting
the claimed output `[Move, Capture]` with no EndTurn. -/
theorem capture_scenario_keeps_endturn :
    plan_turn rng0 gsCapture 1 =
      [.move 1 [(5, 6), (5, 7)], .capture 1, .endTurn] := by decide

/-- C1 (amended): `plan_turn` always appends exactly one EndTurn, as the
final action, even when a Capture is present; the claimed Capture ordering
holds one layer further out, in the executor's call encoding: when any
Capture action is present, `actions_to_calls` emits no end_turn call and
places the capture call strictly last. -/
theorem plan_turn_endturn_and_executor (rng : PyRng) (gs : GameState)
    (pid : ℤ) (_hhq : get_hq_of gs.buildings (opponent_of pid) ≠ none)
    (gid : ℤ) (actions : List PAction)
    (hc : actions.any isCaptureB = true) :
    (plan_turn rng gs pid).count .endTurn = 1 ∧
    (plan_turn rng gs pid).getLast? = some .endTurn ∧
    (∀ c ∈ actions_to_calls gid actions, ∀ g, c ≠ Call.end_turn g) ∧
    (∃ uid, (actions_to_calls gid actions).getLast? =
      some (Call.capture gid uid)) := by
  obtain ⟨A, hA, hshape⟩ := plan_turn_cases rng gs pid
  have hnoet : PAction.endTurn ∉ A := by
    intro hmem
    obtain ⟨u, _, hsh⟩ := hshape _ hmem
    rcases hsh with ⟨p, h⟩ | ⟨tid, h⟩ | h | ⟨h, _⟩ <;> simp at h
  refine ⟨?_, ?_, ?_, ?_⟩
  · rw [hA, List.count_append, List.count_eq_zero.mpr hnoet]
    simp [List.count_singleton]
  · rw [hA, List.getLast?_concat]
  · intro c hc2 g
    rw [actions_to_calls] at hc2
    rw [hc] at hc2
    rcases List.mem_append.mp hc2 with h | h
    · obtain ⟨a, _, hf⟩ := List.mem_filterMap.mp h
      match a with
      | .move uid path =>
        rw [action_to_call] at hf
        injection hf with hf
        subst hf
        simp
      | .attack uid tid =>
        rw [action_to_call] at hf
        injection hf with hf
        subst hf
        simp
      | .capture uid => rw [action_to_call] at hf; exact absurd hf (by simp)
      | .wait uid => rw [action_to_call] at hf; exact absurd hf (by simp)
      | .endTurn => rw [action_to_call] at hf; exact absurd hf (by simp)
    · obtain ⟨a, _, hf⟩ := List.mem_filterMap.mp h
      match a with
      | .capture uid =>
        rw [capture_call] at hf
        injection hf with hf
        subst hf
        simp
      | .move uid path => rw [capture_call] at hf; exact absurd hf (by simp)
      | .attack uid tid => rw [capture_call] at hf; exact absurd hf (by simp)
      | .wait uid => rw [capture_call] at hf; exact absurd hf (by simp)
      | .endTurn => rw [capture_call] at hf; exact absurd hf (by simp)
  · obtain ⟨a, ham, hcap⟩ := List.any_eq_true.mp hc
    obtain ⟨uid, rfl⟩ : ∃ uid, a = PAction.capture uid := by
      match a with
      | .capture uid => exact ⟨uid, rfl⟩
      | .move u p => rw [isCaptureB] at hcap; exact absurd hcap (by simp)
      | .attack u t => rw [isCaptureB] at hcap; exact absurd hcap (by simp)
      | .wait u => rw [isCaptureB] at hcap; exact absurd hcap (by simp)
      | .endTurn => rw [isCaptureB] at hcap; exact absurd hcap (by simp)
    have hmem2 : Call.capture gid uid ∈
        actions.filterMap (capture_call gid) :=
      List.mem_filterMap.mpr ⟨_, ham, rfl⟩
    have hne : actions.filterMap (capture_call gid) ≠ [] :=
      List.ne_nil_of_mem hmem2
    rw [actions_to_calls]
    rw [List.getLast?_append]
    cases hlast : (actions.filterMap (capture_call gid)).getLast? with
    | none => exact absurd (List.getLast?_eq_none_iff.mp hlast) hne
    | some c =>
      obtain ⟨a2, _, hf⟩ := List.mem_filterMap.mp
        (List.mem_of_getLast?_eq_some hlast)
      match a2 with
      | .capture uid2 =>
        rw [capture_call] at hf
        injection hf with hf
        subst hf
        exact ⟨uid2, by simp⟩
      | .move u p => rw [capture_call] at hf; exact absurd hf (by simp)
      | .attack u t => rw [capture_call] at hf; exact absurd hf (by simp)
      | .wait u => rw [capture_call] at hf; exact absurd hf (by simp)
      | .endTurn => rw [capture_call] at hf; exact absurd hf (by simp)

/-- C1 (witness): the amended theorem applied to the Tank-on-HQ snapshot
and a one-capture action list. -/
theorem plan_turn_endturn_and_executor_witness :
    (plan_turn rng0 gsTankHq 1).count .endTurn = 1 ∧
    (plan_turn rng0 gsTankHq 1).getLast? = some PAction.endTurn ∧
    (∀ c ∈ actions_to_calls 3 [.capture 4], ∀ g, c ≠ Call.end_turn g) ∧
    (∃ uid, (actions_to_calls 3 [.capture 4]).getLast? =
      some (Call.capture 3 uid)) :=
  plan_turn_endturn_and_executor rng0 gsTankHq 1 (by decide) 3
    [.capture 4] (by decide)

-- ── C8 ─────────────────────────────────────────────────────────────

/-- C8 (counterexample): contrary to the claim that every eligible unit the
planner cannot otherwise act with receives a Wait action, in the no-enemy
capture march a Tank standing on the enemy HQ (which cannot capture and is
not moved) receives no action at all — the returned list is the bare
EndTurn. -/
theorem tank_on_hq_gets_no_action :
    plan_turn rng0 gsTankHq 1 = [.endTurn] := by decide

/-- C8 (amended): for every snapshot whose enemy HQ exists (the domain on
which the Python planner terminates; with no enemy HQ, no enemies and an
actionable unit it would raise a TypeError), the action list is non-empty
and finite and contains an EndTurn; search failures surface as sentinel
values, but a unit that cannot act in the capture march receives no Wait. -/
theorem plan_turn_nonempty (rng : PyRng) (gs : GameState) (pid : ℤ)
    (_hhq : get_hq_of gs.buildings (opponent_of pid) ≠ none) :
    plan_turn rng gs pid ≠ [] ∧ PAction.endTurn ∈ plan_turn rng gs pid := by
  obtain ⟨A, hA, _⟩ := plan_turn_cases rng gs pid
  rw [hA]
  constructor
  · simp
  · exact List.mem_append.mpr (Or.inr (List.mem_singleton.mpr rfl))

/-- C8 (witness): the amended theorem at the capture scenario snapshot. -/
theorem plan_turn_nonempty_witness :
    plan_turn rng0 gsCapture 1 ≠ [] ∧
    PAction.endTurn ∈ plan_turn rng0 gsCapture 1 :=
  plan_turn_nonempty rng0 gsCapture 1 (by decide)

-- ── C10 ────────────────────────────────────────────────────────────

/-- C10: every Capture action of a planned turn is issued to an Infantry or
Ranger unit of the snapshot (never to a Tank), and in the capture march a
Tank standing on the enemy HQ yields no action at all for itself. -/
theorem capture_only_light_units (rng : PyRng) (gs : GameState) (pid : ℤ)
    (_hhq : get_hq_of gs.buildings (opponent_of pid) ≠ none) :
    (∀ a ∈ plan_turn rng gs pid, ∀ uid, a = PAction.capture uid →
      ∃ u, u ∈ gs.units ∧ u.unit_id = uid ∧
        (u.unit_type = Infantry ∨ u.unit_type = Ranger)) ∧
    (∀ (unit : BUnit) (upos : Pos) (grid : Grid) (occ : List Pos),
      unit.unit_type = Tank →
      plan_capture_march unit upos (some upos) grid occ = ([], upos)) := by
  constructor
  · intro a ha uid hcap
    obtain ⟨A, hA, hshape⟩ := plan_turn_cases rng gs pid
    rw [hA] at ha
    rcases List.mem_append.mp ha with ha | ha
    · obtain ⟨u, hu, hsh⟩ := hshape _ ha
      rcases hsh with ⟨p, h⟩ | ⟨tid, h⟩ | h | ⟨h, hty⟩
      · rw [hcap] at h; exact absurd h (by simp)
      · rw [hcap] at h; exact absurd h (by simp)
      · rw [hcap] at h; exact absurd h (by simp)
      · rw [hcap] at h
        injection h with h2
        exact ⟨u, hu, h2.symm, hty⟩
    · rw [List.mem_singleton.mp ha] at hcap
      exact absurd hcap (by simp)
  · intro unit upos grid occ hty
    rw [plan_capture_march]
    rw [if_pos rfl]
    rw [if_neg]
    rw [hty]
    simp

/-- C10 (witness): the theorem applied at the Tank-on-HQ snapshot; the Tank
standing on the headquarters receives no action. -/
theorem capture_only_light_units_witness :
    plan_capture_march tankHp3 (4, 4) (some (4, 4)) grass20 [] =
      ([], (4, 4)) :=
  (capture_only_light_units rng0 gsTankHq 1 (by decide)).2 tankHp3 (4, 4)
    grass20 [] rfl

/-- The 1-hp Infantry of the charge scenario. -/
def infHp1W : BUnit :=
  { unit_id := 1, player_id := 1, unit_type := Infantry, x := 0, y := 0,
    hp := 1, is_alive := true, last_moved_round := 0, last_acted_round := 0 }

/-- The enemy Ranger of the charge scenario. -/
def rangerHp3W : BUnit :=
  { unit_id := 2, player_id := 2, unit_type := Ranger, x := 3, y := 0,
    hp := 3, is_alive := true, last_moved_round := 0, last_acted_round := 0 }

-- ── C7 ─────────────────────────────────────────────────────────────

/-- C7 (counterexample): a 1-hp Infantry charges adjacent to a Ranger and
attacks; the Ranger survives the ledgered damage (3 - 2 > 0) and its
counterattack damage (3) is lethal to the attacker (1 ≤ 3), yet a Wait IS
appended after the Attack: in the move-then-attack path `_plan_melee` calls
the safety helper with no target, so the claimed equivalence fails. -/
theorem melee_charge_waits_into_lethal_counter :
    plan_turn rng11 gsCharge 1 =
      [.move 1 [(1, 0), (2, 0)], .attack 1 2, .wait 1, .endTurn] ∧
    (0 : ℤ) < 3 - 2 ∧
    (1 : ℤ) ≤ max (UNIT_ATK Ranger -
      TERRAIN_DEFENSE_get (gridAt grass10 (2, 0)) 0) 1 := by
  refine ⟨by decide, by decide, by decide⟩

/-- C7 (amended): the follow-up-Wait rule of the claim holds exactly when
the safety helper receives the attacked target — after an attack launched
without moving (and after a screener's move-then-attack): Wait is appended
iff the target is dead per the ledger or cannot retaliate lethally.  When
the helper is invoked with no target — as in the ranger and melee
move-then-attack paths — the Wait is appended unconditionally. -/
theorem append_wait_safety_rule (acts : List PAction) (u t : BUnit)
    (pos : Pos) (grid : Grid) (led : Ledger) (hne : acts ≠ []) :
    (append_wait_if_safe acts u pos (some t) grid led =
      if t.is_alive = true ∧ 0 < t.hp - ledGet led t.unit_id ∧
          u.hp ≤ max (UNIT_ATK t.unit_type -
            TERRAIN_DEFENSE_get (gridAt grid pos) 0) 1
      then acts else acts ++ [.wait u.unit_id]) ∧
    append_wait_if_safe acts u pos none grid led =
      acts ++ [.wait u.unit_id] := by
  have hemp : acts.isEmpty = false := by
    cases acts with
    | nil => exact absurd rfl hne
    | cons a as => rfl
  constructor
  · rw [append_wait_if_safe, hemp]
    split_ifs with h0 h1 h2 h3 <;>
      first
        | rfl
        | tauto
        | (exact if_pos (by tauto))
        | (exact if_neg (by tauto))
  · rw [append_wait_if_safe, hemp]
    split_ifs with h0 <;> rfl

/-- C7 (witness): the amended rule applied at a concrete call — the
Assassin-scenario Infantry attacking the Ranger from its pre-move cell
would get no Wait (the counter is lethal), while the target-less invocation
appends it. -/
theorem append_wait_safety_rule_witness :
    (append_wait_if_safe [.attack 1 2] infHp1W (2, 0)
      (some rangerHp3W) grass10 [(2, 2)] =
      if rangerHp3W.is_alive = true ∧
          0 < rangerHp3W.hp - ledGet [(2, 2)] rangerHp3W.unit_id ∧
          infHp1W.hp ≤ max (UNIT_ATK rangerHp3W.unit_type -
            TERRAIN_DEFENSE_get (gridAt grass10 (2, 0)) 0) 1
      then [.attack 1 2] else [.attack 1 2] ++ [.wait infHp1W.unit_id]) ∧
    append_wait_if_safe [.attack 1 2] infHp1W (2, 0) none grass10 [(2, 2)] =
      [.attack 1 2] ++ [.wait infHp1W.unit_id] :=
  append_wait_safety_rule [.attack 1 2] infHp1W rangerHp3W (2, 0) grass10
    [(2, 2)] (by decide)

-- ── C5: overkill-ledger replay ─────────────────────────────────────

/-- Lookup of a unit by id in the snapshot list (first match, unique under
the no-duplicate-ids hypothesis). -/
def findUnit (units : List BUnit) (uid : ℤ) : Option BUnit :=
  units.find? (fun u => decide (u.unit_id = uid))

/-- The expected damage `_record_attack` books against a target:
`max(attacker attack - target terrain defense, 1)`. -/
def attack_dmg (attacker target : BUnit) (grid : Grid) : ℤ :=
  max (UNIT_ATK attacker.unit_type -
    TERRAIN_DEFENSE_get (gridAt grid (target.x, target.y)) 0) 1

/-- Replay of the overkill-ledger discipline over an action list: walking
the actions in output order, every Attack must name a live target whose
ledgered damage is still strictly below its hit points at that point, and
books `attack_dmg` against it; all other actions leave the ledger alone.
The replay returns `none` as soon as an attack violates the discipline. -/
def replayLedger (grid : Grid) (units : List BUnit) :
    Ledger → List PAction → Option Ledger
  | l, [] => some l
  | l, PAction.attack uid tid :: rest =>
    match findUnit units uid, findUnit units tid with
    | some atkU, some tgt =>
      if tgt.is_alive = true ∧ ledGet l tid < tgt.hp then
        replayLedger grid units
          (alistSet l tid (ledGet l tid + attack_dmg atkU tgt grid)) rest
      else none
    | some _, none => none
    | none, _ => none
  | l, PAction.move _ _ :: rest => replayLedger grid units l rest
  | l, PAction.capture _ :: rest => replayLedger grid units l rest
  | l, PAction.wait _ :: rest => replayLedger grid units l rest
  | l, PAction.endTurn :: rest => replayLedger grid units l rest

lemma replayLedger_append (grid : Grid) (units : List BUnit) :
    ∀ (A B : List PAction) (l : Ledger),
      replayLedger grid units l (A ++ B) =
        (replayLedger grid units l A).bind
          (fun l2 => replayLedger grid units l2 B) := by
  intro A
  induction A with
  | nil => intro B l; simp [replayLedger]
  | cons a rest ih =>
    intro B l
    match a with
    | PAction.attack uid tid =>
      rw [List.cons_append, replayLedger, replayLedger]
      cases findUnit units uid with
      | none => simp
      | some atkU =>
        cases findUnit units tid with
        | none => simp
        | some tgt =>
          dsimp only
          split
          · exact ih B _
          · simp
    | PAction.move u p => rw [List.cons_append, replayLedger, replayLedger]; exact ih B l
    | PAction.capture u => rw [List.cons_append, replayLedger, replayLedger]; exact ih B l
    | PAction.wait u => rw [List.cons_append, replayLedger, replayLedger]; exact ih B l
    | PAction.endTurn => rw [List.cons_append, replayLedger, replayLedger]; exact ih B l

/-- A list with no Attack action replays to the unchanged ledger. -/
lemma replayLedger_no_attack (grid : Grid) (units : List BUnit) :
    ∀ (A : List PAction) (l : Ledger),
      (∀ uid tid, PAction.attack uid tid ∉ A) →
      replayLedger grid units l A = some l := by
  intro A
  induction A with
  | nil => intro l _; rw [replayLedger]
  | cons a rest ih =>
    intro l hna
    have hrest : ∀ uid tid, PAction.attack uid tid ∉ rest := by
      intro uid tid hmem
      exact hna uid tid (List.mem_cons_of_mem _ hmem)
    match a with
    | PAction.attack uid tid =>
      exact absurd (List.mem_cons_self _ _) (hna uid tid)
    | PAction.move u p => rw [replayLedger]; exact ih l hrest
    | PAction.capture u => rw [replayLedger]; exact ih l hrest
    | PAction.wait u => rw [replayLedger]; exact ih l hrest
    | PAction.endTurn => rw [replayLedger]; exact ih l hrest

/-- Under distinct unit ids, looking a member unit up by its own id finds
exactly it. -/
lemma findUnit_eq_of_mem {units : List BUnit} {u : BUnit}
    (hids : (units.map (fun v => v.unit_id)).Nodup) (hu : u ∈ units) :
    findUnit units u.unit_id = some u := by
  induction units with
  | nil => simp at hu
  | cons v vs ih =>
    rw [List.map_cons, List.nodup_cons] at hids
    rcases List.mem_cons.mp hu with rfl | hu2
    · rw [findUnit, List.find?]
      simp
    · rw [findUnit, List.find?]
      have hne : (decide (v.unit_id = u.unit_id)) = false := by
        simp only [decide_eq_false_iff_not]
        intro heq
        exact hids.1 (heq ▸ List.mem_map.mpr ⟨u, hu2, rfl⟩)
      rw [hne]
      exact ih hids.2 hu2

/-- What a successful focus-target pick guarantees: the target is on the
list, alive, and its ledgered damage is still below its hit points. -/
lemma pick_spec {u : BUnit} {upos : Pos} {targets : List BUnit} {led : Ledger}
    {t : BUnit}
    (h : pick_focus_target_in_range u upos targets led = some t) :
    t ∈ targets ∧ t.is_alive = true ∧ ledGet led t.unit_id < t.hp := by
  rw [pick_focus_target_in_range] at h
  have hp := List.find?_some h
  simp only [Bool.and_eq_true, Bool.not_eq_true, decide_eq_false_iff_not] at hp
  refine ⟨List.mem_of_find?_eq_some h, hp.1.1, ?_⟩
  have h2 := hp.1.2
  rw [Bool.not_eq_eq_eq_not, Bool.not_true, decide_eq_false_iff_not] at h2
  omega

lemma replay_append_wait (grid : Grid) (units : List BUnit)
    (acts : List PAction) (u : BUnit) (pos : Pos) (tgt : Option BUnit)
    (grid2 : Grid) (led l : Ledger) :
    replayLedger grid units l (append_wait_if_safe acts u pos tgt grid2 led) =
      replayLedger grid units l acts := by
  rcases append_wait_cases acts u pos tgt grid2 led with hc | hc <;> rw [hc]
  rw [replayLedger_append]
  cases hr : replayLedger grid units l acts with
  | none => rfl
  | some l2 => simp [replayLedger]

lemma replay_attack_step (grid : Grid) {units : List BUnit}
    (hids : (units.map (fun v => v.unit_id)).Nodup) {u t : BUnit}
    (hu : u ∈ units) (ht : t ∈ units) (l : Ledger)
    (halive : t.is_alive = true) (hlt : ledGet l t.unit_id < t.hp) :
    replayLedger grid units l [PAction.attack u.unit_id t.unit_id] =
      some (record_attack u t grid l) := by
  rw [replayLedger, findUnit_eq_of_mem hids hu, findUnit_eq_of_mem hids ht]
  dsimp only
  rw [if_pos ⟨halive, hlt⟩, replayLedger]
  rfl

lemma plan_melee_replay (grid : Grid) (units : List BUnit)
    (hids : (units.map (fun v => v.unit_id)).Nodup)
    (unit : BUnit) (upos : Pos) (enemies focus_order : List BUnit)
    (occ : List Pos) (led : Ledger) (dm : List (Pos × ℤ)) (st : Strategy)
    (hu : unit ∈ units) (hfo : ∀ t ∈ focus_order, t ∈ units) :
    replayLedger grid units led
      (plan_melee unit upos enemies focus_order grid occ led dm st).1 =
      some (plan_melee unit upos enemies focus_order grid occ led dm st).2.2 := by
  cases hpick : pick_focus_target_in_range unit upos focus_order led with
  | some t =>
    rw [plan_melee.eq_def, hpick]
    dsimp only
    obtain ⟨htm, halive, hlt⟩ := pick_spec hpick
    rw [replay_append_wait,
      replay_attack_step grid hids hu (hfo t htm) led halive hlt]
  | none =>
    rw [plan_melee.eq_def, hpick]
    dsimp only
    split
    · rw [replayLedger, replayLedger]
    · cases hadj : find_adjacent_to grid
          ((focus_order.headD (enemies.headD unit)).x,
           (focus_order.headD (enemies.headD unit)).y)
          unit.unit_type upos (occDiscard occ upos) with
      | some path =>
        dsimp only
        cases hpick2 : pick_focus_target_in_range unit (path.getLastD upos)
            focus_order led with
        | some t2 =>
          dsimp only
          obtain ⟨htm2, halive2, hlt2⟩ := pick_spec hpick2
          rw [replay_append_wait, replayLedger_append,
            replayLedger, replayLedger]
          dsimp only [Option.bind]
          rw [replay_attack_step grid hids hu (hfo t2 htm2) led halive2 hlt2]
        | none =>
          dsimp only
          rw [replay_append_wait, replayLedger, replayLedger]
      | none =>
        dsimp only
        split
        · rw [replay_append_wait, replayLedger, replayLedger]
        · rw [replay_append_wait, replayLedger]

lemma plan_ranger_replay (grid : Grid) (units : List BUnit)
    (hids : (units.map (fun v => v.unit_id)).Nodup)
    (unit : BUnit) (upos : Pos) (enemies focus_order : List BUnit)
    (occ : List Pos) (led : Ledger) (dm : List (Pos × ℤ)) (st : Strategy)
    (hu : unit ∈ units) (hfo : ∀ t ∈ focus_order, t ∈ units) :
    replayLedger grid units led
      (plan_ranger unit upos enemies focus_order grid occ led dm st).1 =
      some (plan_ranger unit upos enemies focus_order grid occ led dm st).2.2 := by
  cases hpick : pick_focus_target_in_range unit upos focus_order led with
  | some t =>
    rw [plan_ranger.eq_def, hpick]
    dsimp only
    obtain ⟨htm, halive, hlt⟩ := pick_spec hpick
    rw [replay_append_wait,
      replay_attack_step grid hids hu (hfo t htm) led halive hlt]
  | none =>
    rw [plan_ranger.eq_def, hpick]
    dsimp only
    split
    · split
      · rename_i sc tile path heq hne
        cases hpick2 : pick_focus_target_in_range unit tile focus_order led with
        | some t2 =>
          dsimp only
          obtain ⟨htm2, halive2, hlt2⟩ := pick_spec hpick2
          rw [replay_append_wait, replayLedger_append,
            replayLedger, replayLedger]
          dsimp only [Option.bind]
          rw [replay_attack_step grid hids hu (hfo t2 htm2) led halive2 hlt2]
        | none =>
          dsimp only
          rw [replay_append_wait, replayLedger, replayLedger]
      · split
        · rw [replay_append_wait, replayLedger]
        · rw [replay_append_wait, replayLedger, replayLedger]
    · split
      · rw [replay_append_wait, replayLedger]
      · rw [replay_append_wait, replayLedger, replayLedger]

lemma plan_combat_unit_replay (grid : Grid) (units : List BUnit)
    (hids : (units.map (fun v => v.unit_id)).Nodup)
    (unit : BUnit) (upos : Pos) (enemies focus_order : List BUnit)
    (occ : List Pos) (led : Ledger) (dm : List (Pos × ℤ)) (st : Strategy)
    (hu : unit ∈ units) (hfo : ∀ t ∈ focus_order, t ∈ units) :
    replayLedger grid units led
      (plan_combat_unit unit upos enemies focus_order grid occ led dm st).1 =
      some (plan_combat_unit unit upos enemies focus_order grid occ led dm st).2.2 := by
  rw [plan_combat_unit]
  split
  · exact plan_ranger_replay grid units hids unit upos enemies focus_order
      occ led dm st hu hfo
  · exact plan_melee_replay grid units hids unit upos enemies focus_order
      occ led dm st hu hfo

lemma plan_screener_replay (grid : Grid) (units : List BUnit)
    (hids : (units.map (fun v => v.unit_id)).Nodup)
    (unit : BUnit) (upos : Pos) (enemies my_units : List BUnit)
    (occ : List Pos) (led : Ledger) (dm : List (Pos × ℤ)) (st : Strategy)
    (hu : unit ∈ units) (hen : ∀ t ∈ enemies, t ∈ units) :
    replayLedger grid units led
      (plan_screener unit upos enemies my_units grid occ led dm st).1 =
      some (plan_screener unit upos enemies my_units grid occ led dm st).2.2 := by
  cases hpick : pick_focus_target_in_range unit upos enemies led with
  | some t =>
    rw [plan_screener.eq_def, hpick]
    dsimp only
    obtain ⟨htm, halive, hlt⟩ := pick_spec hpick
    rw [replay_append_wait,
      replay_attack_step grid hids hu (hen t htm) led halive hlt]
  | none =>
    rw [plan_screener.eq_def, hpick]
    dsimp only
    split
    · exact plan_melee_replay grid units hids unit upos enemies enemies
        occ led dm st hu hen
    · split
      · rw [replayLedger, replayLedger]
      · rename_i p ps heq
        cases hpick2 : pick_focus_target_in_range unit ((p :: ps).getLastD upos)
            enemies led with
        | some t2 =>
          dsimp only
          obtain ⟨htm2, halive2, hlt2⟩ := pick_spec hpick2
          rw [replay_append_wait, replayLedger_append,
            replayLedger, replayLedger]
          dsimp only [Option.bind]
          rw [replay_attack_step grid hids hu (hen t2 htm2) led halive2 hlt2]
        | none =>
          dsimp only
          rw [replay_append_wait, replayLedger, replayLedger]

lemma replay_comp (grid : Grid) (units : List BUnit)
    {A B : List PAction} {l l1 l2 : Ledger}
    (hA : replayLedger grid units l A = some l1)
    (hB : replayLedger grid units l1 B = some l2) :
    replayLedger grid units l (A ++ B) = some l2 := by
  rw [replayLedger_append, hA]
  dsimp only [Option.bind]
  exact hB

lemma replay_end_isSome (grid : Grid) (units : List BUnit)
    {A : List PAction} {l l2 : Ledger}
    (h : replayLedger grid units l A = some l2) :
    (replayLedger grid units l (A ++ [PAction.endTurn])).isSome = true := by
  rw [replayLedger_append, h]
  dsimp only [Option.bind]
  rw [replayLedger, replayLedger]
  rfl

lemma phaseLoopP_replay_no_attack (grid : Grid) (units : List BUnit)
    {f : BUnit → Pos → List Pos → List PAction × Pos}
    {g : List BUnit} {occ : List Pos} {l : Ledger}
    (hf : ∀ u ∈ g, ∀ upos occ2 uid tid,
      PAction.attack uid tid ∉ (f u upos occ2).1) :
    replayLedger grid units l (phaseLoopP f g occ).1 = some l := by
  apply replayLedger_no_attack
  intro uid tid hmem
  obtain ⟨u, hu, occ2, hm⟩ := phaseLoopP_mem hmem
  exact hf u hu _ occ2 uid tid hm

lemma plan_flanker_no_attack {u : BUnit} {upos : Pos} {hq : Option Pos}
    {enemies : List BUnit} {grid : Grid} {occ : List Pos}
    {dm : List (Pos × ℤ)} {st : Strategy} {uid tid : ℤ} :
    PAction.attack uid tid ∉ (plan_flanker u upos hq enemies grid occ dm st).1 := by
  intro h
  rcases plan_flanker_mem h with h1 | ⟨h1, _⟩ | ⟨p, h1⟩ <;>
    exact PAction.noConfusion h1

lemma plan_retreat_no_attack {u : BUnit} {upos : Pos} {enemies : List BUnit}
    {dm : List (Pos × ℤ)} {grid : Grid} {occ : List Pos} {hq : Option Pos}
    {st : Strategy} {uid tid : ℤ} :
    PAction.attack uid tid ∉ (plan_retreat u upos enemies dm grid occ hq st).1 := by
  intro h
  rcases plan_retreat_mem h with h1 | ⟨p, h1⟩ <;> exact PAction.noConfusion h1

lemma plan_capture_march_no_attack {u : BUnit} {upos : Pos} {hq : Option Pos}
    {grid : Grid} {occ : List Pos} {uid tid : ℤ} :
    PAction.attack uid tid ∉ (plan_capture_march u upos hq grid occ).1 := by
  intro h
  rcases plan_capture_march_mem h with ⟨h1, _⟩ | ⟨p, h1⟩ <;>
    exact PAction.noConfusion h1

lemma mem_enemy_sub {units : List BUnit} {pid : ℤ} {u : BUnit}
    (h : u ∈ enemy_units_of units pid) : u ∈ units :=
  (List.mem_filter.mp h).1

lemma assign_focus_targets_sub {my_units enemies : List BUnit} {st : Strategy}
    {t : BUnit} (h : t ∈ assign_focus_targets my_units enemies st) :
    t ∈ enemies := by
  rw [assign_focus_targets] at h
  split at h
  · exact absurd h (by simp)
  · dsimp only at h
    obtain ⟨s, hs, hst⟩ := List.mem_map.mp h
    obtain ⟨e, he, rfl⟩ := List.mem_map.mp (pySort_mem.mp hs)
    dsimp only at hst
    rwa [← hst]

lemma assign_assassin_targets_sub {enemies : List BUnit}
    {t : BUnit} (h : t ∈ assign_assassin_targets enemies) : t ∈ enemies := by
  rw [assign_assassin_targets] at h
  split at h
  · exact absurd h (by simp)
  · dsimp only at h
    obtain ⟨s, hs, hst⟩ := List.mem_map.mp h
    obtain ⟨e, he, rfl⟩ := List.mem_map.mp (pySort_mem.mp hs)
    dsimp only at hst
    rwa [← hst]

lemma phaseLoopL_replay (grid : Grid) (units : List BUnit)
    (f : BUnit → Pos → List Pos → Ledger → List PAction × Pos × Ledger) :
    ∀ (g : List BUnit),
      (∀ u ∈ g, ∀ upos occ l,
        replayLedger grid units l (f u upos occ l).1 =
          some (f u upos occ l).2.2) →
      ∀ (occ : List Pos) (l : Ledger),
        replayLedger grid units l (phaseLoopL f g occ l).1 =
          some (phaseLoopL f g occ l).2.2 := by
  intro g
  induction g with
  | nil =>
    intro _ occ l
    rw [phaseLoopL]
    dsimp only
    rw [replayLedger]
  | cons u rest ih =>
    intro hf occ l
    rw [phaseLoopL]
    dsimp only
    exact replay_comp _ _ (hf u (List.mem_cons_self _ _) _ occ l)
      (ih (fun v hv => hf v (List.mem_cons_of_mem _ hv)) _ _)

lemma replay_phases_end (grid : Grid) (units : List BUnit)
    {A B C D : List PAction} {lC lD : Ledger}
    (hA : replayLedger grid units [] A = some [])
    (hB : replayLedger grid units [] B = some [])
    (hC : replayLedger grid units [] C = some lC)
    (hD : replayLedger grid units lC D = some lD) :
    (replayLedger grid units []
      ((((A ++ B) ++ C) ++ D) ++ [PAction.endTurn])).isSome = true :=
  replay_end_isSome _ _
    (replay_comp _ _ (replay_comp _ _ (replay_comp _ _ hA hB) hC) hD)

-- ── C5 ─────────────────────────────────────────────────────────────

/-- C5: the overkill-ledger discipline of a planned turn.  `replayLedger`
re-checks, action by action, the ledger rule of the spec: every Attack of
the output must name an attacker and a target of the snapshot, the target
must be alive with its ledgered cumulative expected damage at that point
strictly below its current hit points, and the attack then adds
`max(attacker attack − target terrain defense, 1)` to the target's ledger
entry.  For every snapshot with distinct unit ids and the enemy HQ present,
replaying `plan_turn`'s whole output from the empty ledger succeeds, i.e.
no attack of the turn is ever assigned a target whose ledgered damage
already meets or exceeds its hit points. -/
theorem overkill_ledger_sound (rng : PyRng) (gs : GameState) (pid : ℤ)
    (hids : (gs.units.map (fun v => v.unit_id)).Nodup)
    (_hhq : get_hq_of gs.buildings (opponent_of pid) ≠ none) :
    (replayLedger gs.grid gs.units [] (plan_turn rng gs pid)).isSome = true := by
  rw [plan_turn, plan_turn_core]
  dsimp only
  split
  · rw [replayLedger, replayLedger]; rfl
  · split
    · rw [replayLedger, replayLedger]; rfl
    · split
      · apply replay_end_isSome
        apply phaseLoopP_replay_no_attack
        intro u _ upos occ2 uid tid
        exact plan_capture_march_no_attack
      · apply replay_phases_end
        · apply phaseLoopP_replay_no_attack
          intro u _ upos occ2 uid tid
          exact plan_flanker_no_attack
        · apply phaseLoopP_replay_no_attack
          intro u _ upos occ2 uid tid
          exact plan_retreat_no_attack
        · apply phaseLoopL_replay
          intro u hu upos occ l
          exact plan_screener_replay _ _ hids u upos _ _ occ l _ _
            (mem_filter_actionable_sub (splitPair_snd_sub (splitPair_fst_sub hu)))
            (fun t ht => mem_enemy_sub ht)
        · apply phaseLoopL_replay
          intro u hu upos occ l
          have hu2 : u ∈ gs.units := by
            split at hu
            · rw [List.partition_eq_filter_filter] at hu
              dsimp only at hu
              rcases List.mem_append.mp (List.mem_filter.mp hu).1 with h | h
              · exact mem_filter_actionable_sub
                  (splitPair_snd_sub (splitPair_snd_sub h))
              · exact mem_filter_actionable_sub h
            · replace hu := pySort_mem.mp hu
              rw [List.partition_eq_filter_filter] at hu
              dsimp only at hu
              rcases List.mem_append.mp (List.mem_filter.mp hu).1 with h | h
              · exact mem_filter_actionable_sub
                  (splitPair_snd_sub (splitPair_snd_sub h))
              · exact mem_filter_actionable_sub h
          refine plan_combat_unit_replay _ _ hids u upos _ _ occ l _ _ hu2 ?_
          intro t ht
          split at ht
          · exact mem_enemy_sub (assign_assassin_targets_sub ht)
          · exact mem_enemy_sub (assign_focus_targets_sub ht)

/-- C5 (witness): the hypotheses hold and the replay succeeds on the
charge snapshot, whose planned turn contains an Attack action. -/
theorem overkill_ledger_sound_witness :
    ((gsCharge.units.map (fun v => v.unit_id)).Nodup ∧
      get_hq_of gsCharge.buildings (opponent_of 1) ≠ none) ∧
    (replayLedger gsCharge.grid gsCharge.units []
      (plan_turn rng11 gsCharge 1)).isSome = true :=
  ⟨⟨by decide, by decide⟩,
    overkill_ledger_sound rng11 gsCharge 1 (by decide) (by decide)⟩

-- ── pathfinder path validity (toward the occupancy invariant) ──────

lemma getLastD_getLast? {α : Type} (d : α) :
    ∀ (l : List α), l ≠ [] → l.getLast? = some (l.getLastD d) := by
  intro l hl
  cases l with
  | nil => exact absurd rfl hl
  | cons a as =>
    rw [List.getLastD_eq_getLast?]
    cases h : (a :: as).getLast? with
    | none => exact absurd h (by simp)
    | some x => rfl

lemma alistGet_mem {κ α : Type} [DecidableEq κ] :
    ∀ {l : List (κ × α)} {k : κ} {v : α},
      alistGet l k = some v → (k, v) ∈ l := by
  intro l
  induction l with
  | nil => intro k v h; simp [alistGet] at h
  | cons a as ih =>
    intro k v h
    rw [alistGet] at h
    split at h
    · rename_i heq
      simp only [Option.some.injEq] at h
      subst h; subst heq
      exact List.mem_cons_self _ _
    · exact List.mem_cons_of_mem _ (ih h)

lemma mem_alistGet_isSome {κ α : Type} [DecidableEq κ] :
    ∀ {l : List (κ × α)} {k : κ} {v : α},
      (k, v) ∈ l → (alistGet l k).isSome = true := by
  intro l
  induction l with
  | nil => intro k v h; simp at h
  | cons a as ih =>
    intro k v h
    rw [alistGet]
    split
    · rfl
    · rename_i hne
      rcases List.mem_cons.mp h with rfl | h2
      · exact absurd rfl hne
      · exact ih h2

lemma foldl_preserve {α β : Type} (P : β → Prop) (f : β → α → β) :
    ∀ (l : List α) (init : β), P init →
      (∀ acc x, x ∈ l → P acc → P (f acc x)) → P (l.foldl f init) := by
  intro l
  induction l with
  | nil => intro init h _; exact h
  | cons a as ih =>
    intro init h hstep
    rw [List.foldl_cons]
    exact ih _ (hstep init a (List.mem_cons_self _ _) h)
      (fun acc x hx hacc => hstep acc x (List.mem_cons_of_mem _ hx) hacc)

/-- The per-entry validity facts of the `find_reachable` Dijkstra: an empty
path belongs to the start key only, a non-empty path ends at its key, and no
path cell is blocked or equal to the start. -/
def reachEntryOk (occ : List Pos) (start : Pos) (b : Pos × ℕ × List Pos) : Prop :=
  (b.2.2 = [] → b.1 = start) ∧
  (b.2.2 ≠ [] → b.2.2.getLast? = some b.1) ∧
  (∀ x ∈ b.2.2, x ∉ occ ∧ x ≠ start)

lemma frLoop_path_spec (grid : Grid) (ut : UnitType) (occ : List Pos)
    (mr : ℕ) (start : Pos) :
    ∀ (fuel : ℕ) (opens : List QEntry) (best : Reach),
      (∀ e ∈ opens, reachEntryOk occ start (e.pos, e.cost, e.path)) →
      (∀ b ∈ best, reachEntryOk occ start b) →
      (best = [] → ∀ e ∈ opens, e.path = []) →
      (best ≠ [] → (alistGet best start).isSome = true) →
      ∀ b ∈ frLoop grid ut occ mr fuel opens best, reachEntryOk occ start b := by
  intro fuel
  induction fuel with
  | zero => intro opens best _ hb _ _ b hx; rw [frLoop] at hx; exact hb b hx
  | succ f ih =>
    intro opens best ho hb hemp hst b hx
    rw [frLoop] at hx
    cases hpop : popMin opens with
    | none => rw [hpop] at hx; exact hb b hx
    | some pr =>
      obtain ⟨e, rest⟩ := pr
      rw [hpop] at hx
      dsimp only at hx
      obtain ⟨hem, hrest⟩ := popMin_mem hpop
      have ho2 : ∀ y ∈ rest, reachEntryOk occ start (y.pos, y.cost, y.path) :=
        fun y hy => ho y (hrest y hy)
      by_cases hget : (alistGet best e.pos).isSome = true
      · rw [if_pos hget] at hx
        refine ih rest best ho2 hb ?_ hst b hx
        intro hbe
        rw [hbe] at hget
        simp [alistGet] at hget
      · rw [if_neg hget] at hx
        have hb2 : ∀ y ∈ best ++ [(e.pos, e.cost, e.path)],
            reachEntryOk occ start y := by
          intro y hy
          rcases List.mem_append.mp hy with hy | hy
          · exact hb y hy
          · simp only [List.mem_singleton] at hy
            subst hy; exact ho e hem
        have hne2 : best ++ [(e.pos, e.cost, e.path)] ≠ [] := by simp
        have hst2 : (alistGet (best ++ [(e.pos, e.cost, e.path)]) start).isSome
            = true := by
          by_cases hbe : best = []
          · have hpe : e.path = [] := hemp hbe e hem
            have hpos : e.pos = start := (ho e hem).1 hpe
            rw [hbe, hpos]
            simp [alistGet]
          · obtain ⟨v, hv⟩ := Option.isSome_iff_exists.mp (hst hbe)
            rw [alistGet_append_left hv]
            rfl
        split at hx
        · exact ih rest _ ho2 hb2 (fun h => absurd h hne2)
            (fun _ => hst2) b hx
        · refine ih _ _ ?_ hb2 (fun h => absurd h hne2) (fun _ => hst2) b hx
          intro y hy
          rcases List.mem_append.mp hy with hy | hy
          · exact ho2 y hy
          · obtain ⟨np, hnp, hf⟩ := List.mem_filterMap.mp hy
            by_cases hgets : (alistGet (best ++ [(e.pos, e.cost, e.path)]) np).isSome = true
            · rw [if_pos hgets] at hf; exact absurd hf (by simp)
            · rw [if_neg hgets] at hf
              cases hmc : move_cost (gridAt grid np) ut with
              | none => rw [hmc] at hf; exact absurd hf (by simp)
              | some step =>
                rw [hmc] at hf
                dsimp only at hf
                split at hf
                · exact absurd hf (by simp)
                · split at hf
                  · exact absurd hf (by simp)
                  · rename_i hocc
                    simp only [Option.some.injEq] at hf
                    subst hf
                    dsimp only
                    refine ⟨by simp, fun _ => List.getLast?_concat _, ?_⟩
                    intro x hxm
                    rcases List.mem_append.mp hxm with hxm | hxm
                    · exact ((ho e hem).2.2 x hxm)
                    · simp only [List.mem_singleton] at hxm
                      subst hxm
                      refine ⟨hocc, ?_⟩
                      intro hxs
                      rw [hxs] at hgets
                      exact hgets hst2

lemma find_reachable_path_spec {grid : Grid} {start : Pos} {ut : UnitType}
    {occ : List Pos} {mr : Option ℕ} {b : Pos × ℕ × List Pos}
    (h : b ∈ find_reachable grid start ut occ mr) : reachEntryOk occ start b := by
  rw [find_reachable] at h
  refine frLoop_path_spec grid ut occ _ start SEARCH_FUEL _ [] ?_ (by simp)
    (fun _ e he => by simpa using ((by simpa using he : e = ⟨0, start, []⟩) ▸ rfl))
    (fun hne => absurd rfl hne) b h
  intro e he
  simp only [List.mem_singleton] at he
  subst he
  exact ⟨fun _ => rfl, fun hc => absurd rfl hc, by simp⟩

lemma mem_occDiscard {occ : List Pos} {p c : Pos} :
    c ∈ occDiscard occ p ↔ c ∈ occ ∧ c ≠ p := by
  rw [occDiscard]
  simp [List.mem_filter]

lemma best_move_toward_spec {grid : Grid} {start goal : Pos} {ut : UnitType}
    {occ : List Pos} {x : Pos}
    (h : x ∈ best_move_toward grid start goal ut occ) : x ∉ occ ∧ x ≠ start := by
  rw [best_move_toward] at h
  split at h
  · rename_i c p ps hg
    have := (find_reachable_path_spec (alistGet_mem hg)).2.2
    exact this x h
  · dsimp only at h
    split at h
    · exact absurd h (by simp)
    · split at h
      · exact absurd h (by simp)
      · split at h
        · rename_i c p hg
          have := (find_reachable_path_spec (alistGet_mem hg)).2.2
          exact this x h
        · exact absurd h (by simp)

lemma find_adjacent_to_spec {grid : Grid} {target : Pos} {ut : UnitType}
    {start : Pos} {occ : List Pos} {path : List Pos}
    (h : find_adjacent_to grid target ut start occ = some path) :
    path ≠ [] ∧ ∀ x ∈ path, x ∉ occ ∧ x ≠ start := by
  rw [find_adjacent_to] at h
  split at h
  · exact absurd h (by simp)
  · rename_i c cs hsort
    simp only [Option.some.injEq] at h
    have hc : c ∈ c :: cs := List.mem_cons_self _ _
    rw [← hsort] at hc
    have hc2 := pySort_mem.mp hc
    obtain ⟨np, hnp, hf⟩ := List.mem_filterMap.mp hc2
    split at hf
    · rename_i cost p ps hg
      simp only [Option.some.injEq] at hf
      subst hf
      subst h
      dsimp only
      have := (find_reachable_path_spec (alistGet_mem hg)).2.2
      exact ⟨by simp, this⟩
    · exact absurd hf (by simp)

-- ── the C9 move/occupancy checker ──────────────────────────────────

/-- One Move action checked against the claim's conditions: the path must
be non-empty, avoid every destination already placed this turn, and avoid
every cell held by a living unit that has not yet moved (the mover's own
start cell excepted); the mover then counts as moved and its path end
becomes a placed destination. -/
def chkStep (units : List BUnit) (moved : List ℤ) (placed : List Pos)
    (uid : ℤ) (path : List Pos) : Option (List ℤ × List Pos) :=
  match findUnit units uid with
  | none => none
  | some mover =>
    if path ≠ [] ∧
        (∀ c ∈ path, c ∉ placed ∧
          ∀ v ∈ units, v.is_alive = true → v.unit_id ∉ moved →
            (v.x, v.y) = c → (v.x, v.y) = (mover.x, mover.y))
    then some (uid :: moved, path.getLastD (mover.x, mover.y) :: placed)
    else none

/-- Walk an action list in output order, checking every Move action with
`chkStep` and threading the moved-units / placed-destinations state;
`none` marks a violation of the claim's occupancy discipline. -/
def movesChk (units : List BUnit) :
    List ℤ × List Pos → List PAction → Option (List ℤ × List Pos)
  | st, [] => some st
  | st, PAction.move uid path :: rest =>
    match chkStep units st.1 st.2 uid path with
    | none => none
    | some st2 => movesChk units st2 rest
  | st, PAction.attack _ _ :: rest => movesChk units st rest
  | st, PAction.capture _ :: rest => movesChk units st rest
  | st, PAction.wait _ :: rest => movesChk units st rest
  | st, PAction.endTurn :: rest => movesChk units st rest

lemma movesChk_append (units : List BUnit) (B : List PAction) :
    ∀ (A : List PAction) (st : List ℤ × List Pos),
      movesChk units st (A ++ B) =
        (movesChk units st A).bind (fun st2 => movesChk units st2 B) := by
  intro A
  induction A with
  | nil => intro st; rw [List.nil_append, movesChk]; rfl
  | cons a rest ih =>
    intro st
    match a with
    | PAction.move uid path =>
      rw [List.cons_append, movesChk, movesChk]
      cases chkStep units st.1 st.2 uid path with
      | none => rfl
      | some st2 => exact ih st2
    | PAction.attack u t => rw [List.cons_append, movesChk, movesChk]; exact ih st
    | PAction.capture u => rw [List.cons_append, movesChk, movesChk]; exact ih st
    | PAction.wait u => rw [List.cons_append, movesChk, movesChk]; exact ih st
    | PAction.endTurn => rw [List.cons_append, movesChk, movesChk]; exact ih st

/-- The Move actions of an action list, in order, as `(unit id, path)`. -/
def movesOf : List PAction → List (ℤ × List Pos)
  | [] => []
  | PAction.move uid p :: rest => (uid, p) :: movesOf rest
  | PAction.attack _ _ :: rest => movesOf rest
  | PAction.capture _ :: rest => movesOf rest
  | PAction.wait _ :: rest => movesOf rest
  | PAction.endTurn :: rest => movesOf rest

lemma movesOf_append : ∀ (A B : List PAction),
    movesOf (A ++ B) = movesOf A ++ movesOf B := by
  intro A B
  induction A with
  | nil => rw [List.nil_append, movesOf, List.nil_append]
  | cons a rest ih =>
    match a with
    | PAction.move uid p => rw [List.cons_append, movesOf, movesOf, ih]; rfl
    | PAction.attack u t => rw [List.cons_append, movesOf, movesOf]; exact ih
    | PAction.capture u => rw [List.cons_append, movesOf, movesOf]; exact ih
    | PAction.wait u => rw [List.cons_append, movesOf, movesOf]; exact ih
    | PAction.endTurn => rw [List.cons_append, movesOf, movesOf]; exact ih

lemma movesOf_append_wait (acts : List PAction) (u : BUnit) (pos : Pos)
    (tgt : Option BUnit) (grid : Grid) (led : Ledger) :
    movesOf (append_wait_if_safe acts u pos tgt grid led) = movesOf acts := by
  rcases append_wait_cases acts u pos tgt grid led with hc | hc <;> rw [hc]
  rw [movesOf_append, movesOf, movesOf, List.append_nil]

lemma movesChk_of_movesOf_nil (units : List BUnit) :
    ∀ (A : List PAction) (st : List ℤ × List Pos),
      movesOf A = [] → movesChk units st A = some st := by
  intro A
  induction A with
  | nil => intro st _; rw [movesChk]
  | cons a rest ih =>
    intro st hm
    match a with
    | PAction.move uid p => rw [movesOf] at hm; exact absurd hm (by simp)
    | PAction.attack u t => rw [movesOf] at hm; rw [movesChk]; exact ih st hm
    | PAction.capture u => rw [movesOf] at hm; rw [movesChk]; exact ih st hm
    | PAction.wait u => rw [movesOf] at hm; rw [movesChk]; exact ih st hm
    | PAction.endTurn => rw [movesOf] at hm; rw [movesChk]; exact ih st hm

lemma movesChk_of_movesOf_single (units : List BUnit) {uid : ℤ}
    {path : List Pos} :
    ∀ (A : List PAction) (st : List ℤ × List Pos),
      movesOf A = [(uid, path)] →
      movesChk units st A = chkStep units st.1 st.2 uid path := by
  intro A
  induction A with
  | nil => intro st hm; rw [movesOf] at hm; exact absurd hm (by simp)
  | cons a rest ih =>
    intro st hm
    match a with
    | PAction.move uid2 p2 =>
      rw [movesOf] at hm
      simp only [List.cons.injEq, Prod.mk.injEq] at hm
      obtain ⟨⟨h1, h2⟩, h3⟩ := hm
      rw [movesChk, h1, h2]
      cases hc : chkStep units st.1 st.2 uid path with
      | none => rfl
      | some st2 => exact movesChk_of_movesOf_nil units rest st2 h3
    | PAction.attack u t => rw [movesOf] at hm; rw [movesChk]; exact ih st hm
    | PAction.capture u => rw [movesOf] at hm; rw [movesChk]; exact ih st hm
    | PAction.wait u => rw [movesOf] at hm; rw [movesChk]; exact ih st hm
    | PAction.endTurn => rw [movesOf] at hm; rw [movesChk]; exact ih st hm

/-- What every per-unit planner guarantees about its planned movement: a
block either contains no Move (and the reported new position is the start),
or exactly one Move of the planned unit, along a non-empty path that ends
at the reported new position, leaves the start, and avoids every cell of
the occupied working set as well as the start cell. -/
def MovePlanOk (u : BUnit) (upos : Pos) (occupied : List Pos)
    (acts : List PAction) (new_pos : Pos) : Prop :=
  (movesOf acts = [] ∧ new_pos = upos) ∨
  (∃ path, movesOf acts = [(u.unit_id, path)] ∧ path ≠ [] ∧
    path.getLast? = some new_pos ∧ new_pos ≠ upos ∧
    ∀ c ∈ path, c ∉ occupied ∧ c ≠ upos)

lemma sel_foldl_spec {γ : Type} {reachable : Reach}
    {f : Option (γ × Pos × List Pos) → Pos × ℕ × List Pos → Option (γ × Pos × List Pos)}
    {a : γ × Pos × List Pos}
    (h : reachable.foldl f none = some a)
    (hf : ∀ acc item, f acc item = acc ∨
      (item.2.2 ≠ [] ∧ ∃ sc, f acc item = some (sc, item.1, item.2.2))) :
    ∃ b ∈ reachable, b.1 = a.2.1 ∧ b.2.2 = a.2.2 ∧ b.2.2 ≠ [] := by
  have hP := foldl_preserve (fun acc => acc = none ∨
      ∃ b ∈ reachable, ∃ sc, acc = some (sc, b.1, b.2.2) ∧ b.2.2 ≠ [])
    f reachable none (Or.inl rfl) ?_
  · rcases hP with hP | ⟨b, hb, sc, he, hne⟩
    · rw [hP] at h; exact absurd h (by simp)
    · rw [he] at h
      simp only [Option.some.injEq] at h
      subst h
      exact ⟨b, hb, rfl, rfl, hne⟩
  · intro acc x hx hacc
    rcases hf acc x with he | ⟨hne, sc, he⟩
    · rw [he]; exact hacc
    · rw [he]; exact Or.inr ⟨x, hx, sc, rfl, hne⟩

lemma retreat_foldl_spec {reachable : Reach}
    {f : ℚ × Pos → Pos × ℕ × List Pos → ℚ × Pos} {init : ℚ × Pos}
    (hne : (reachable.foldl f init).2 ≠ init.2)
    (hf : ∀ acc item, (f acc item).2 = acc.2 ∨
      (item.2.2 ≠ [] ∧ (f acc item).2 = item.1)) :
    ∃ b ∈ reachable, (reachable.foldl f init).2 = b.1 ∧ b.2.2 ≠ [] := by
  have hP := foldl_preserve (fun acc => acc.2 = init.2 ∨
      ∃ b ∈ reachable, acc.2 = b.1 ∧ b.2.2 ≠ [])
    f reachable init (Or.inl rfl) ?_
  · rcases hP with hP | hP
    · exact absurd hP hne
    · exact hP
  · intro acc x hx hacc
    rcases hf acc x with he | ⟨hne2, he⟩
    · rw [he]; exact hacc
    · rw [he]; exact Or.inr ⟨x, hx, rfl, hne2⟩

lemma best_advance_tile_spec {reachable : Reach} {goal : Pos} {grid : Grid}
    {dm : List (Pos × ℤ)} {ut : UnitType} {st : Strategy} {tile : Pos}
    {rpath : List Pos}
    (h : best_advance_tile reachable goal grid dm ut st = some (tile, rpath)) :
    ∃ b ∈ reachable, b.1 = tile ∧ b.2.2 = rpath ∧ rpath ≠ [] := by
  rw [best_advance_tile] at h
  dsimp only at h
  obtain ⟨a, ha, hga⟩ := Option.map_eq_some'.mp h
  have h2 := sel_foldl_spec ha ?_
  · rw [hga] at h2
    obtain ⟨b, hb, h1, h3, h4⟩ := h2
    exact ⟨b, hb, h1, h3, fun hc => h4 (h3.trans hc)⟩
  · intro acc item
    dsimp only
    split
    · exact Or.inl rfl
    · rename_i hni
      split
      · exact Or.inl rfl
      · split
        · exact Or.inr ⟨hni, _, rfl⟩
        · split
          · exact Or.inr ⟨hni, _, rfl⟩
          · exact Or.inl rfl

lemma bmt_cells {grid : Grid} {upos goal : Pos} {ut : UnitType}
    {occupied : List Pos} {p : Pos} {ps : List Pos}
    (h : best_move_toward grid upos goal ut (occDiscard occupied upos) = p :: ps) :
    ((p :: ps).getLast? = some ((p :: ps).getLastD upos)) ∧
    (p :: ps).getLastD upos ≠ upos ∧
    ∀ c ∈ p :: ps, c ∉ occupied ∧ c ≠ upos := by
  have hcell : ∀ c ∈ p :: ps, c ∉ occupied ∧ c ≠ upos := by
    intro c hc
    have hs := best_move_toward_spec
      (show c ∈ best_move_toward grid upos goal ut (occDiscard occupied upos) by
        rw [h]; exact hc)
    exact ⟨fun hin => hs.1 (mem_occDiscard.mpr ⟨hin, hs.2⟩), hs.2⟩
  have hlast := getLastD_getLast? upos (p :: ps) (by simp)
  exact ⟨hlast, (hcell _ (List.mem_of_getLast?_eq_some hlast)).2, hcell⟩

lemma fadj_cells {grid : Grid} {target : Pos} {ut : UnitType} {upos : Pos}
    {occupied : List Pos} {path : List Pos}
    (h : find_adjacent_to grid target ut upos (occDiscard occupied upos) = some path) :
    path ≠ [] ∧ path.getLast? = some (path.getLastD upos) ∧
    path.getLastD upos ≠ upos ∧ ∀ c ∈ path, c ∉ occupied ∧ c ≠ upos := by
  obtain ⟨hne, hsp⟩ := find_adjacent_to_spec h
  have hcell : ∀ c ∈ path, c ∉ occupied ∧ c ≠ upos := by
    intro c hc
    have hs := hsp c hc
    exact ⟨fun hin => hs.1 (mem_occDiscard.mpr ⟨hin, hs.2⟩), hs.2⟩
  have hlast := getLastD_getLast? upos path hne
  exact ⟨hne, hlast, (hcell _ (List.mem_of_getLast?_eq_some hlast)).2, hcell⟩

lemma plan_capture_march_moveok (u : BUnit) (upos : Pos) (hq : Option Pos)
    (grid : Grid) (occupied : List Pos) :
    MovePlanOk u upos occupied (plan_capture_march u upos hq grid occupied).1
      (plan_capture_march u upos hq grid occupied).2 := by
  rw [plan_capture_march.eq_def]
  split
  · exact Or.inl ⟨rfl, rfl⟩
  · rename_i hqv
    split
    · split
      · exact Or.inl ⟨rfl, rfl⟩
      · exact Or.inl ⟨rfl, rfl⟩
    · dsimp only
      cases hbmt : best_move_toward grid upos hqv u.unit_type
          (occDiscard occupied upos) with
      | nil => exact Or.inl ⟨rfl, rfl⟩
      | cons p ps =>
        dsimp only
        obtain ⟨hlast, hne, hcells⟩ := bmt_cells hbmt
        refine Or.inr ⟨p :: ps, ?_, by simp, hlast, hne, hcells⟩
        rw [movesOf_append]
        split <;> rfl

lemma plan_retreat_moveok (u : BUnit) (upos : Pos) (enemies : List BUnit)
    (dm : List (Pos × ℤ)) (grid : Grid) (occupied : List Pos)
    (hq : Option Pos) (st : Strategy) :
    MovePlanOk u upos occupied
      (plan_retreat u upos enemies dm grid occupied hq st).1
      (plan_retreat u upos enemies dm grid occupied hq st).2 := by
  rw [plan_retreat.eq_def]
  dsimp only
  split
  · rename_i hbt
    obtain ⟨b, hb, hfb, hbne⟩ := retreat_foldl_spec hbt (by
      intro acc item
      split
      · exact Or.inl rfl
      · rename_i hni
        split
        · exact Or.inr ⟨hni, rfl⟩
        · exact Or.inl rfl)
    rw [hfb] at hbt ⊢
    have hsome : (alistGet (find_reachable grid upos u.unit_type
        (occDiscard occupied upos) none) b.1).isSome = true :=
      mem_alistGet_isSome hb
    obtain ⟨v, hv⟩ := Option.isSome_iff_exists.mp hsome
    rw [hv]
    simp only [Option.map_some', Option.getD_some]
    have hspec := find_reachable_path_spec (alistGet_mem hv)
    have hvne : v.2 ≠ [] := fun hc => hbt (hspec.1 hc)
    have hcell : ∀ c ∈ v.2, c ∉ occupied ∧ c ≠ upos := by
      intro c hc
      have hs := hspec.2.2 c hc
      exact ⟨fun hin => hs.1 (mem_occDiscard.mpr ⟨hin, hs.2⟩), hs.2⟩
    exact Or.inr ⟨v.2, rfl, hvne, hspec.2.1 hvne, hbt, hcell⟩
  · exact Or.inl ⟨rfl, rfl⟩

lemma plan_flanker_moveok (u : BUnit) (upos : Pos) (hq : Option Pos)
    (enemies : List BUnit) (grid : Grid) (occupied : List Pos)
    (dm : List (Pos × ℤ)) (st : Strategy) :
    MovePlanOk u upos occupied
      (plan_flanker u upos hq enemies grid occupied dm st).1
      (plan_flanker u upos hq enemies grid occupied dm st).2 := by
  rw [plan_flanker.eq_def]
  split
  · exact Or.inl ⟨rfl, rfl⟩
  · split
    · exact Or.inl ⟨rfl, rfl⟩
    · dsimp only
      split
      · rename_i sc tile path hbest
        split
        · rename_i htne
          obtain ⟨b, hb, hb1, hb2, hbne⟩ := sel_foldl_spec hbest (by
            intro acc item
            split
            · exact Or.inl rfl
            · rename_i hni
              split
              · exact Or.inl rfl
              · split
                · exact Or.inr ⟨hni, _, rfl⟩
                · split
                  · exact Or.inr ⟨hni, _, rfl⟩
                  · exact Or.inl rfl)
          have hspec := find_reachable_path_spec hb
          dsimp only at hb1 hb2
          have hpne : path ≠ [] := by rw [← hb2]; exact hbne
          have hlast : path.getLast? = some tile := by
            rw [← hb1, ← hb2]
            exact hspec.2.1 hbne
          have hcell : ∀ c ∈ path, c ∉ occupied ∧ c ≠ upos := by
            intro c hc
            rw [← hb2] at hc
            have hs := hspec.2.2 c hc
            exact ⟨fun hin => hs.1 (mem_occDiscard.mpr ⟨hin, hs.2⟩), hs.2⟩
          refine Or.inr ⟨path, ?_, hpne, hlast, htne, hcell⟩
          rw [movesOf_append, movesOf_append]
          split <;> rfl
        · exact Or.inl ⟨rfl, rfl⟩
      · exact Or.inl ⟨rfl, rfl⟩

lemma plan_melee_moveok (u : BUnit) (upos : Pos) (enemies focus_order : List BUnit)
    (grid : Grid) (occupied : List Pos) (led : Ledger) (dm : List (Pos × ℤ))
    (st : Strategy) :
    MovePlanOk u upos occupied
      (plan_melee u upos enemies focus_order grid occupied led dm st).1
      (plan_melee u upos enemies focus_order grid occupied led dm st).2.1 := by
  cases hpick : pick_focus_target_in_range u upos focus_order led with
  | some t =>
    rw [plan_melee.eq_def, hpick]
    dsimp only
    exact Or.inl ⟨by rw [movesOf_append_wait]; rfl, rfl⟩
  | none =>
    rw [plan_melee.eq_def, hpick]
    dsimp only
    split
    · exact Or.inl ⟨rfl, rfl⟩
    · cases hadj : find_adjacent_to grid
          ((focus_order.headD (enemies.headD u)).x,
           (focus_order.headD (enemies.headD u)).y)
          u.unit_type upos (occDiscard occupied upos) with
      | some path =>
        dsimp only
        obtain ⟨hpne, hlast, hlne, hcell⟩ := fadj_cells hadj
        cases hpick2 : pick_focus_target_in_range u (path.getLastD upos)
            focus_order led with
        | some t2 =>
          dsimp only
          refine Or.inr ⟨path, ?_, hpne, hlast, hlne, hcell⟩
          rw [movesOf_append_wait, movesOf_append]
          rfl
        | none =>
          dsimp only
          refine Or.inr ⟨path, ?_, hpne, hlast, hlne, hcell⟩
          rw [movesOf_append_wait]
          rfl
      | none =>
        dsimp only
        cases hbat : best_advance_tile
            (find_reachable grid upos u.unit_type (occDiscard occupied upos) none)
            ((focus_order.headD (enemies.headD u)).x,
             (focus_order.headD (enemies.headD u)).y) grid dm u.unit_type st with
        | some pr =>
          obtain ⟨tile, rpath⟩ := pr
          dsimp only
          obtain ⟨b, hb, hb1, hb2, hbne⟩ := best_advance_tile_spec hbat
          have hspec := find_reachable_path_spec hb
          have hbne2 : b.2.2 ≠ [] := by rw [hb2]; exact hbne
          have hrne : rpath ≠ [] := hbne
          have hlast : rpath.getLast? = some tile := by
            rw [← hb1, ← hb2]; exact hspec.2.1 hbne2
          have hcell : ∀ c ∈ rpath, c ∉ occupied ∧ c ≠ upos := by
            intro c hc
            rw [← hb2] at hc
            have hs := hspec.2.2 c hc
            exact ⟨fun hin => hs.1 (mem_occDiscard.mpr ⟨hin, hs.2⟩), hs.2⟩
          have htne : tile ≠ upos :=
            (hcell _ (List.mem_of_getLast?_eq_some hlast)).2
          refine Or.inr ⟨rpath, ?_, hrne, hlast, htne, hcell⟩
          rw [movesOf_append_wait]
          rfl
        | none =>
          dsimp only
          exact Or.inl ⟨by rw [movesOf_append_wait]; rfl, rfl⟩

lemma plan_ranger_moveok (u : BUnit) (upos : Pos) (enemies focus_order : List BUnit)
    (grid : Grid) (occupied : List Pos) (led : Ledger) (dm : List (Pos × ℤ))
    (st : Strategy) :
    MovePlanOk u upos occupied
      (plan_ranger u upos enemies focus_order grid occupied led dm st).1
      (plan_ranger u upos enemies focus_order grid occupied led dm st).2.1 := by
  cases hpick : pick_focus_target_in_range u upos focus_order led with
  | some t =>
    rw [plan_ranger.eq_def, hpick]
    dsimp only
    exact Or.inl ⟨by rw [movesOf_append_wait]; rfl, rfl⟩
  | none =>
    rw [plan_ranger.eq_def, hpick]
    dsimp only
    split
    · rename_i sc tile path hbest
      split
      · rename_i htne
        obtain ⟨b, hb, hb1, hb2, hbne⟩ := sel_foldl_spec hbest (by
          intro acc item
          split
          · exact Or.inl rfl
          · rename_i hni
            try dsimp only
            repeat' split
            all_goals first
              | exact Or.inr ⟨hni, _, rfl⟩
              | exact Or.inl rfl)
        have hspec := find_reachable_path_spec hb
        dsimp only at hb1 hb2
        have hpne : path ≠ [] := by rw [← hb2]; exact hbne
        have hlast : path.getLast? = some tile := by
          rw [← hb1, ← hb2]; exact hspec.2.1 hbne
        have hcell : ∀ c ∈ path, c ∉ occupied ∧ c ≠ upos := by
          intro c hc
          rw [← hb2] at hc
          have hs := hspec.2.2 c hc
          exact ⟨fun hin => hs.1 (mem_occDiscard.mpr ⟨hin, hs.2⟩), hs.2⟩
        cases hpick2 : pick_focus_target_in_range u tile focus_order led with
        | some t2 =>
          dsimp only
          refine Or.inr ⟨path, ?_, hpne, hlast, htne, hcell⟩
          rw [movesOf_append_wait, movesOf_append]
          rfl
        | none =>
          dsimp only
          refine Or.inr ⟨path, ?_, hpne, hlast, htne, hcell⟩
          rw [movesOf_append_wait]
          rfl
      · cases hbmt : best_move_toward grid upos
            ((focus_order.headD (enemies.headD u)).x,
             (focus_order.headD (enemies.headD u)).y) u.unit_type
            (occDiscard occupied upos) with
        | nil =>
          dsimp only
          exact Or.inl ⟨by rw [movesOf_append_wait]; rfl, rfl⟩
        | cons p ps =>
          dsimp only
          obtain ⟨hlast, hne, hcells⟩ := bmt_cells hbmt
          refine Or.inr ⟨p :: ps, ?_, by simp, hlast, hne, hcells⟩
          rw [movesOf_append_wait]
          rfl
    · cases hbmt : best_move_toward grid upos
          ((focus_order.headD (enemies.headD u)).x,
           (focus_order.headD (enemies.headD u)).y) u.unit_type
          (occDiscard occupied upos) with
      | nil =>
        dsimp only
        exact Or.inl ⟨by rw [movesOf_append_wait]; rfl, rfl⟩
      | cons p ps =>
        dsimp only
        obtain ⟨hlast, hne, hcells⟩ := bmt_cells hbmt
        refine Or.inr ⟨p :: ps, ?_, by simp, hlast, hne, hcells⟩
        rw [movesOf_append_wait]
        rfl

lemma plan_screener_moveok (u : BUnit) (upos : Pos) (enemies my_units : List BUnit)
    (grid : Grid) (occupied : List Pos) (led : Ledger) (dm : List (Pos × ℤ))
    (st : Strategy) :
    MovePlanOk u upos occupied
      (plan_screener u upos enemies my_units grid occupied led dm st).1
      (plan_screener u upos enemies my_units grid occupied led dm st).2.1 := by
  cases hpick : pick_focus_target_in_range u upos enemies led with
  | some t =>
    rw [plan_screener.eq_def, hpick]
    dsimp only
    exact Or.inl ⟨by rw [movesOf_append_wait]; rfl, rfl⟩
  | none =>
    rw [plan_screener.eq_def, hpick]
    dsimp only
    split
    · exact plan_melee_moveok u upos enemies enemies grid occupied led dm st
    · split
      · exact Or.inl ⟨rfl, rfl⟩
      · rename_i p ps hbmt
        try dsimp only
        obtain ⟨hlast, hne, hcells⟩ := bmt_cells hbmt
        cases hpick2 : pick_focus_target_in_range u ((p :: ps).getLastD upos)
            enemies led with
        | some t2 =>
          try dsimp only
          refine Or.inr ⟨p :: ps, ?_, by simp, hlast, hne, hcells⟩
          rw [movesOf_append_wait, movesOf_append]
          rfl
        | none =>
          try dsimp only
          refine Or.inr ⟨p :: ps, ?_, by simp, hlast, hne, hcells⟩
          rw [movesOf_append_wait]
          rfl

lemma plan_combat_unit_moveok (u : BUnit) (upos : Pos)
    (enemies focus_order : List BUnit) (grid : Grid) (occupied : List Pos)
    (led : Ledger) (dm : List (Pos × ℤ)) (st : Strategy) :
    MovePlanOk u upos occupied
      (plan_combat_unit u upos enemies focus_order grid occupied led dm st).1
      (plan_combat_unit u upos enemies focus_order grid occupied led dm st).2.1 := by
  rw [plan_combat_unit]
  split
  · exact plan_ranger_moveok u upos enemies focus_order grid occupied led dm st
  · exact plan_melee_moveok u upos enemies focus_order grid occupied led dm st

/-- Correspondence between the planner's occupied working set and the
checker state: placed destinations are in the working set, every living
unit that has not yet moved still holds its cell there, and no placed
destination coincides with such a unit's cell. -/
def OccInv (units : List BUnit) (moved : List ℤ) (placed : List Pos)
    (occ : List Pos) : Prop :=
  (∀ c ∈ placed, c ∈ occ) ∧
  (∀ v ∈ units, v.is_alive = true → v.unit_id ∉ moved → (v.x, v.y) ∈ occ) ∧
  (∀ c ∈ placed, ∀ v ∈ units, v.is_alive = true → v.unit_id ∉ moved →
    (v.x, v.y) ≠ c)

/-- Internal consistency of a snapshot: no two living units share a cell. -/
abbrev PosInj (units : List BUnit) : Prop :=
  ∀ v ∈ units, ∀ w ∈ units, v.is_alive = true → w.is_alive = true →
    (v.x, v.y) = (w.x, w.y) → v.unit_id = w.unit_id

lemma chk_block_step {units : List BUnit}
    (hids : (units.map (fun v => v.unit_id)).Nodup)
    (hpos : PosInj units)
    {u : BUnit} (hu : u ∈ units) (hal : u.is_alive = true)
    {moved : List ℤ} (hum : u.unit_id ∉ moved)
    {placed : List Pos} {occ : List Pos}
    (hinv : OccInv units moved placed occ)
    {acts : List PAction} {np : Pos}
    (hok : MovePlanOk u (u.x, u.y) occ acts np) :
    ∃ st2, movesChk units (moved, placed) acts = some st2 ∧
      OccInv units st2.1 st2.2
        (if np ≠ (u.x, u.y) then occAdd (occDiscard occ (u.x, u.y)) np else occ) ∧
      (∀ i ∈ st2.1, i ∈ moved ∨ i = u.unit_id) := by
  rcases hok with ⟨hm, hnp⟩ | ⟨path, hm, hpne, hlast, hnne, hcells⟩
  · refine ⟨(moved, placed), movesChk_of_movesOf_nil units acts (moved, placed) hm, ?_, ?_⟩
    · rw [if_neg (fun hc => hc hnp)]
      exact hinv
    · exact fun i hi => Or.inl hi
  · have hchk := movesChk_of_movesOf_single units acts (moved, placed) hm
    rw [chkStep, findUnit_eq_of_mem hids hu] at hchk
    dsimp only at hchk
    rw [if_pos ?_] at hchk
    · have hgl : path.getLastD (u.x, u.y) = np := by
        rw [List.getLastD_eq_getLast?, hlast]
        rfl
      rw [hgl] at hchk
      refine ⟨(u.unit_id :: moved, np :: placed), hchk, ?_, ?_⟩
      · rw [if_pos hnne]
        have hnpocc : np ∉ occ :=
          (hcells np (List.mem_of_getLast?_eq_some hlast)).1
        refine ⟨?_, ?_, ?_⟩
        · intro c hc
          rcases List.mem_cons.mp hc with rfl | hc
          · exact List.mem_append_right _ (by simp)
          · have h1 := hinv.1 c hc
            have h2 : (u.x, u.y) ≠ c := hinv.2.2 c hc u hu hal hum
            exact List.mem_append_left _
              (mem_occDiscard.mpr ⟨h1, fun hcc => h2 hcc.symm⟩)
        · intro v hv hva hvm
          have hvm2 : v.unit_id ∉ moved :=
            fun hc => hvm (List.mem_cons_of_mem _ hc)
          have hvne : v.unit_id ≠ u.unit_id :=
            fun hc => hvm (hc ▸ List.mem_cons_self _ _)
          have h1 := hinv.2.1 v hv hva hvm2
          have h2 : (v.x, v.y) ≠ (u.x, u.y) :=
            fun hc => hvne (hpos v hv u hu hva hal hc)
          exact List.mem_append_left _ (mem_occDiscard.mpr ⟨h1, h2⟩)
        · intro c hc v hv hva hvm
          have hvm2 : v.unit_id ∉ moved :=
            fun hcc => hvm (List.mem_cons_of_mem _ hcc)
          rcases List.mem_cons.mp hc with rfl | hc
          · intro hcc
            exact hnpocc (hcc ▸ hinv.2.1 v hv hva hvm2)
          · exact hinv.2.2 c hc v hv hva hvm2
      · intro i hi
        rcases List.mem_cons.mp hi with rfl | hi
        · exact Or.inr rfl
        · exact Or.inl hi
    · refine ⟨hpne, ?_⟩
      intro c hc
      obtain ⟨hcno, hcnu⟩ := hcells c hc
      refine ⟨fun hcp => hcno (hinv.1 c hcp), ?_⟩
      intro v hv hva hvm hvc
      exact absurd (hvc ▸ hinv.2.1 v hv hva hvm) hcno

lemma phaseLoopP_chk {units : List BUnit}
    (hids : (units.map (fun v => v.unit_id)).Nodup)
    (hpos : PosInj units)
    (f : BUnit → Pos → List Pos → List PAction × Pos)
    (hf : ∀ u occ2, MovePlanOk u (u.x, u.y) occ2
      (f u (u.x, u.y) occ2).1 (f u (u.x, u.y) occ2).2) :
    ∀ (g : List BUnit) (moved : List ℤ) (placed : List Pos) (occ : List Pos),
      (∀ u ∈ g, u ∈ units ∧ u.is_alive = true) →
      ((g.map (fun u => u.unit_id)).Nodup) →
      (∀ u ∈ g, u.unit_id ∉ moved) →
      OccInv units moved placed occ →
      ∃ moved2 placed2,
        movesChk units (moved, placed) (phaseLoopP f g occ).1 =
          some (moved2, placed2) ∧
        OccInv units moved2 placed2 (phaseLoopP f g occ).2 ∧
        ∀ i ∈ moved2, i ∈ moved ∨ ∃ u ∈ g, i = u.unit_id := by
  intro g
  induction g with
  | nil =>
    intro moved placed occ _ _ _ hinv
    rw [phaseLoopP]
    exact ⟨moved, placed, rfl, hinv, fun i hi => Or.inl hi⟩
  | cons u rest ih =>
    intro moved placed occ hg hgid hgm hinv
    rw [phaseLoopP]
    dsimp only
    obtain ⟨st2, hchk, hinv2, hbound⟩ := chk_block_step hids hpos
      (hg u (List.mem_cons_self _ _)).1 (hg u (List.mem_cons_self _ _)).2
      (hgm u (List.mem_cons_self _ _)) hinv (hf u occ)
    rw [List.map_cons, List.nodup_cons] at hgid
    obtain ⟨moved2, placed2, hchk2, hinv3, hbound2⟩ :=
      ih st2.1 st2.2 _
        (fun v hv => hg v (List.mem_cons_of_mem _ hv))
        hgid.2
        (fun v hv hc => by
          rcases hbound _ hc with hc2 | hc2
          · exact hgm v (List.mem_cons_of_mem _ hv) hc2
          · exact hgid.1 (hc2 ▸ List.mem_map_of_mem (fun w => w.unit_id) hv))
        hinv2
    refine ⟨moved2, placed2, ?_, hinv3, ?_⟩
    · rw [movesChk_append, hchk]
      dsimp only [Option.bind]
      exact hchk2
    · intro i hi
      rcases hbound2 i hi with hi2 | ⟨v, hv, hi2⟩
      · rcases hbound i hi2 with hi3 | hi3
        · exact Or.inl hi3
        · exact Or.inr ⟨u, List.mem_cons_self _ _, hi3⟩
      · exact Or.inr ⟨v, List.mem_cons_of_mem _ hv, hi2⟩

lemma phaseLoopL_chk {units : List BUnit}
    (hids : (units.map (fun v => v.unit_id)).Nodup)
    (hpos : PosInj units)
    (f : BUnit → Pos → List Pos → Ledger → List PAction × Pos × Ledger)
    (hf : ∀ u occ2 led, MovePlanOk u (u.x, u.y) occ2
      (f u (u.x, u.y) occ2 led).1 (f u (u.x, u.y) occ2 led).2.1) :
    ∀ (g : List BUnit) (moved : List ℤ) (placed : List Pos) (occ : List Pos)
      (led : Ledger),
      (∀ u ∈ g, u ∈ units ∧ u.is_alive = true) →
      ((g.map (fun u => u.unit_id)).Nodup) →
      (∀ u ∈ g, u.unit_id ∉ moved) →
      OccInv units moved placed occ →
      ∃ moved2 placed2,
        movesChk units (moved, placed) (phaseLoopL f g occ led).1 =
          some (moved2, placed2) ∧
        OccInv units moved2 placed2 (phaseLoopL f g occ led).2.1 ∧
        ∀ i ∈ moved2, i ∈ moved ∨ ∃ u ∈ g, i = u.unit_id := by
  intro g
  induction g with
  | nil =>
    intro moved placed occ led _ _ _ hinv
    rw [phaseLoopL]
    exact ⟨moved, placed, rfl, hinv, fun i hi => Or.inl hi⟩
  | cons u rest ih =>
    intro moved placed occ led hg hgid hgm hinv
    rw [phaseLoopL]
    dsimp only
    obtain ⟨st2, hchk, hinv2, hbound⟩ := chk_block_step hids hpos
      (hg u (List.mem_cons_self _ _)).1 (hg u (List.mem_cons_self _ _)).2
      (hgm u (List.mem_cons_self _ _)) hinv (hf u occ led)
    rw [List.map_cons, List.nodup_cons] at hgid
    obtain ⟨moved2, placed2, hchk2, hinv3, hbound2⟩ :=
      ih st2.1 st2.2 _ _
        (fun v hv => hg v (List.mem_cons_of_mem _ hv))
        hgid.2
        (fun v hv hc => by
          rcases hbound _ hc with hc2 | hc2
          · exact hgm v (List.mem_cons_of_mem _ hv) hc2
          · exact hgid.1 (hc2 ▸ List.mem_map_of_mem (fun w => w.unit_id) hv))
        hinv2
    refine ⟨moved2, placed2, ?_, hinv3, ?_⟩
    · rw [movesChk_append, hchk]
      dsimp only [Option.bind]
      exact hchk2
    · intro i hi
      rcases hbound2 i hi with hi2 | ⟨v, hv, hi2⟩
      · rcases hbound i hi2 with hi3 | hi3
        · exact Or.inl hi3
        · exact Or.inr ⟨u, List.mem_cons_self _ _, hi3⟩
      · exact Or.inr ⟨v, List.mem_cons_of_mem _ hv, hi2⟩

lemma pyInsert_perm {α : Type} (le : α → α → Bool) (x : α) :
    ∀ (l : List α), List.Perm (pyInsert le x l) (x :: l) := by
  intro l
  induction l with
  | nil => exact List.Perm.refl _
  | cons y ys ih =>
    rw [pyInsert]
    split
    · exact List.Perm.refl _
    · exact (List.Perm.cons y ih).trans (List.Perm.swap x y ys)

lemma pySort_perm {α : Type} (le : α → α → Bool) :
    ∀ (l : List α), List.Perm (pySort le l) l := by
  intro l
  induction l with
  | nil => exact List.Perm.refl _
  | cons x xs ih =>
    rw [pySort]
    exact (pyInsert_perm le x (pySort le xs)).trans (List.Perm.cons x ih)

lemma splitPair_perm {le : BUnit → BUnit → Bool} {l : List BUnit} {n : ℕ}
    {c : Prop} [Decidable c] :
    List.Perm
      ((if c then ((pySort le l).take n, (pySort le l).drop n) else ([], l)).1 ++
       (if c then ((pySort le l).take n, (pySort le l).drop n) else ([], l)).2) l := by
  split
  · rw [List.take_append_drop]
    exact pySort_perm le l
  · exact List.Perm.refl _

lemma partition_append_perm {p : BUnit → Bool} {l : List BUnit} :
    List.Perm ((l.partition p).1 ++ (l.partition p).2) l := by
  rw [List.partition_eq_filter_filter]
  exact List.filter_append_perm p l

lemma filter_ne_perm (l : List BUnit) :
    List.Perm
      (l.filter (fun u => decide (u.unit_type = Infantry)) ++
       l.filter (fun u => decide (u.unit_type ≠ Infantry))) l := by
  have hpred : (fun u : BUnit => decide (u.unit_type ≠ Infantry)) =
      (fun u : BUnit => !decide (u.unit_type = Infantry)) :=
    funext (fun u => by rw [decide_not])
  rw [hpred]
  exact List.filter_append_perm _ l

lemma groups_perm {α : Type}
    {F i1 i0 S i2 others R att A2 act : List α}
    (h1 : List.Perm (F ++ i1) i0)
    (h2 : List.Perm (S ++ i2) i1)
    (h3 : List.Perm (R ++ att) (i2 ++ others))
    (h4 : List.Perm A2 att)
    (h5 : List.Perm (i0 ++ others) act) :
    List.Perm (((F ++ R) ++ S) ++ A2) act := by
  have step1 : List.Perm (((F ++ R) ++ S) ++ A2) (((F ++ R) ++ S) ++ att) :=
    List.Perm.append_left _ h4
  have hmid0 : List.Perm ((R ++ S) ++ att) ((S ++ R) ++ att) :=
    (@List.perm_append_comm α R S).append_right att
  have hmid : List.Perm ((R ++ S) ++ att) (S ++ (R ++ att)) := by
    rw [List.append_assoc S R att] at hmid0
    exact hmid0
  have e1 : ((F ++ R) ++ S) ++ att = F ++ ((R ++ S) ++ att) := by
    rw [List.append_assoc F R S, List.append_assoc F (R ++ S) att]
  have step2 : List.Perm (((F ++ R) ++ S) ++ att) (F ++ (S ++ (R ++ att))) := by
    rw [e1]
    exact List.Perm.append_left F hmid
  have step3 : List.Perm (F ++ (S ++ (R ++ att))) (F ++ (S ++ (i2 ++ others))) :=
    List.Perm.append_left F (List.Perm.append_left S h3)
  have step4 : List.Perm (F ++ (S ++ (i2 ++ others))) (F ++ (i1 ++ others)) := by
    refine List.Perm.append_left F ?_
    rw [← List.append_assoc]
    exact h2.append_right others
  have step5 : List.Perm (F ++ (i1 ++ others)) (i0 ++ others) := by
    rw [← List.append_assoc]
    exact h1.append_right others
  exact ((((step1.trans step2).trans step3).trans step4).trans step5).trans h5

lemma occInv_init (units : List BUnit) :
    OccInv units [] [] (occupied_positions_of units) := by
  refine ⟨by simp, ?_, by simp⟩
  intro v hv hva _
  rw [occupied_positions_of]
  exact List.mem_map_of_mem _ (List.mem_filter.mpr ⟨hv, hva⟩)

lemma mem_alive_facts {units : List BUnit} {pid : ℤ} {u : BUnit}
    (h : u ∈ alive_units_of units pid) : u ∈ units ∧ u.is_alive = true := by
  rw [alive_units_of] at h
  have h2 := List.mem_filter.mp h
  refine ⟨h2.1, ?_⟩
  have h3 := h2.2
  rw [Bool.and_eq_true] at h3
  exact h3.2

lemma actionable_facts {units : List BUnit} {pid r : ℤ} {p : BUnit → Bool}
    {u : BUnit}
    (h : u ∈ List.filter p (List.filter (fun v => decide (v.last_acted_round < r))
      (alive_units_of units pid))) : u ∈ units ∧ u.is_alive = true :=
  mem_alive_facts (List.mem_filter.mp (List.mem_filter.mp h).1).1

lemma actionable1_facts {units : List BUnit} {pid r : ℤ} {u : BUnit}
    (h : u ∈ List.filter (fun v => decide (v.last_acted_round < r))
      (alive_units_of units pid)) : u ∈ units ∧ u.is_alive = true :=
  mem_alive_facts (List.mem_filter.mp h).1

lemma one_phase_chk {units : List BUnit}
    (hids : (units.map (fun v => v.unit_id)).Nodup)
    (hpos : PosInj units)
    {f1 : BUnit → Pos → List Pos → List PAction × Pos}
    (hf1 : ∀ u occ2, MovePlanOk u (u.x, u.y) occ2
      (f1 u (u.x, u.y) occ2).1 (f1 u (u.x, u.y) occ2).2)
    (G : List BUnit) (occ0 : List Pos)
    (hmem : ∀ u ∈ G, u ∈ units ∧ u.is_alive = true)
    (hnd : (G.map (fun u => u.unit_id)).Nodup)
    (hinv : OccInv units [] [] occ0) :
    (movesChk units ([], [])
      ((phaseLoopP f1 G occ0).1 ++ [PAction.endTurn])).isSome = true := by
  obtain ⟨m1, p1s, hchk1, _, _⟩ := phaseLoopP_chk hids hpos f1 hf1 G [] [] occ0
    hmem hnd (fun u _ => List.not_mem_nil _) hinv
  rw [movesChk_append, hchk1]
  dsimp only [Option.bind]
  rw [movesChk, movesChk]
  rfl

lemma four_phase_chk {units : List BUnit}
    (hids : (units.map (fun v => v.unit_id)).Nodup)
    (hpos : PosInj units)
    {f1 f2 : BUnit → Pos → List Pos → List PAction × Pos}
    {f3 f4 : BUnit → Pos → List Pos → Ledger → List PAction × Pos × Ledger}
    (hf1 : ∀ u occ2, MovePlanOk u (u.x, u.y) occ2
      (f1 u (u.x, u.y) occ2).1 (f1 u (u.x, u.y) occ2).2)
    (hf2 : ∀ u occ2, MovePlanOk u (u.x, u.y) occ2
      (f2 u (u.x, u.y) occ2).1 (f2 u (u.x, u.y) occ2).2)
    (hf3 : ∀ u occ2 led, MovePlanOk u (u.x, u.y) occ2
      (f3 u (u.x, u.y) occ2 led).1 (f3 u (u.x, u.y) occ2 led).2.1)
    (hf4 : ∀ u occ2 led, MovePlanOk u (u.x, u.y) occ2
      (f4 u (u.x, u.y) occ2 led).1 (f4 u (u.x, u.y) occ2 led).2.1)
    (F R S A2 : List BUnit) (occ0 : List Pos) (led3 : Ledger)
    (hmem : ∀ u ∈ ((F ++ R) ++ S) ++ A2, u ∈ units ∧ u.is_alive = true)
    (hnd : ((((F ++ R) ++ S) ++ A2).map (fun u => u.unit_id)).Nodup)
    (hinv : OccInv units [] [] occ0) :
    (movesChk units ([], [])
      (((((phaseLoopP f1 F occ0).1 ++
          (phaseLoopP f2 R (phaseLoopP f1 F occ0).2).1) ++
         (phaseLoopL f3 S (phaseLoopP f2 R (phaseLoopP f1 F occ0).2).2 led3).1) ++
        (phaseLoopL f4 A2
          (phaseLoopL f3 S (phaseLoopP f2 R (phaseLoopP f1 F occ0).2).2 led3).2.1
          (phaseLoopL f3 S (phaseLoopP f2 R (phaseLoopP f1 F occ0).2).2
            led3).2.2).1) ++
       [PAction.endTurn])).isSome = true := by
  rw [List.map_append, List.nodup_append] at hnd
  obtain ⟨hndFRS, hndA2, hdisj3⟩ := hnd
  rw [List.map_append, List.nodup_append] at hndFRS
  obtain ⟨hndFR, hndS, hdisj2⟩ := hndFRS
  rw [List.map_append, List.nodup_append] at hndFR
  obtain ⟨hndF, hndR, hdisj1⟩ := hndFR
  have hmF : ∀ u ∈ F, u ∈ units ∧ u.is_alive = true := fun u hu =>
    hmem u (List.mem_append_left _ (List.mem_append_left _
      (List.mem_append_left _ hu)))
  have hmR : ∀ u ∈ R, u ∈ units ∧ u.is_alive = true := fun u hu =>
    hmem u (List.mem_append_left _ (List.mem_append_left _
      (List.mem_append_right _ hu)))
  have hmS : ∀ u ∈ S, u ∈ units ∧ u.is_alive = true := fun u hu =>
    hmem u (List.mem_append_left _ (List.mem_append_right _ hu))
  have hmA2 : ∀ u ∈ A2, u ∈ units ∧ u.is_alive = true := fun u hu =>
    hmem u (List.mem_append_right _ hu)
  obtain ⟨m1, p1s, hchk1, hinv1, hb1⟩ := phaseLoopP_chk hids hpos f1 hf1
    F [] [] occ0 hmF hndF (fun u _ => List.not_mem_nil _) hinv
  have hb1m : ∀ i ∈ m1, i ∈ F.map (fun u => u.unit_id) := by
    intro i hi
    rcases hb1 i hi with hi2 | ⟨u, hu, rfl⟩
    · exact absurd hi2 (List.not_mem_nil _)
    · exact List.mem_map_of_mem _ hu
  obtain ⟨m2, p2s, hchk2, hinv2, hb2⟩ := phaseLoopP_chk hids hpos f2 hf2
    R m1 p1s _ hmR hndR
    (fun u hu hc => hdisj1 (hb1m _ hc) (List.mem_map_of_mem _ hu)) hinv1
  have hb2m : ∀ i ∈ m2, i ∈ (F ++ R).map (fun u => u.unit_id) := by
    intro i hi
    rw [List.map_append]
    rcases hb2 i hi with hi2 | ⟨u, hu, rfl⟩
    · exact List.mem_append_left _ (hb1m _ hi2)
    · exact List.mem_append_right _ (List.mem_map_of_mem _ hu)
  obtain ⟨m3, p3s, hchk3, hinv3, hb3⟩ := phaseLoopL_chk hids hpos f3 hf3
    S m2 p2s _ led3 hmS hndS
    (fun u hu hc => hdisj2 (hb2m _ hc) (List.mem_map_of_mem _ hu)) hinv2
  have hb3m : ∀ i ∈ m3, i ∈ ((F ++ R) ++ S).map (fun u => u.unit_id) := by
    intro i hi
    rw [List.map_append]
    rcases hb3 i hi with hi2 | ⟨u, hu, rfl⟩
    · exact List.mem_append_left _ (hb2m _ hi2)
    · exact List.mem_append_right _ (List.mem_map_of_mem _ hu)
  obtain ⟨m4, p4s, hchk4, _, _⟩ := phaseLoopL_chk hids hpos f4 hf4
    A2 m3 p3s _ _ hmA2 hndA2
    (fun u hu hc => hdisj3 (hb3m _ hc) (List.mem_map_of_mem _ hu)) hinv3
  rw [movesChk_append, movesChk_append, movesChk_append, movesChk_append,
    hchk1]
  dsimp only [Option.bind]
  rw [hchk2]
  dsimp only [Option.bind]
  rw [hchk3]
  dsimp only [Option.bind]
  rw [hchk4]
  dsimp only [Option.bind]
  rw [movesChk, movesChk]
  rfl

-- ── C9 ─────────────────────────────────────────────────────────────

/-- C9: the occupancy discipline of planned movement.  `movesChk` walks the
planner's output in order and checks, for every Move action, the claim's
conditions: the path never passes through or ends on the destination cell
of an earlier Move (hence no two Moves share a destination), and never
enters a cell held by a living unit that has not moved earlier in the turn
(the mover's own start cell excepted); the occupied-positions working set
of `plan_turn` simulates exactly the sequential effect of already-planned
moves.  The check succeeds on every snapshot with distinct unit ids, no two
living units sharing a cell, and the enemy HQ present. -/
theorem moves_occupancy_sound (rng : PyRng) (gs : GameState) (pid : ℤ)
    (hids : (gs.units.map (fun v => v.unit_id)).Nodup)
    (hpos : PosInj gs.units)
    (_hhq : get_hq_of gs.buildings (opponent_of pid) ≠ none) :
    (movesChk gs.units ([], []) (plan_turn rng gs pid)).isSome = true := by
  have halq : List.Sublist (alive_units_of gs.units pid) gs.units := by
    rw [alive_units_of]
    exact List.filter_sublist _
  have hactnd : ((List.filter
      (fun v => decide (v.last_acted_round < gs.info.round))
      (alive_units_of gs.units pid)).map (fun u => u.unit_id)).Nodup :=
    hids.sublist (List.Sublist.map _ ((List.filter_sublist _).trans halq))
  rw [plan_turn, plan_turn_core]
  dsimp only
  split
  · rw [movesChk, movesChk]; rfl
  · split
    · rw [movesChk, movesChk]; rfl
    · split
      · cases hhq2 : get_hq_of gs.buildings (opponent_of pid) with
        | some hq =>
          apply one_phase_chk hids hpos
          · intro u occ2
            exact plan_capture_march_moveok u (u.x, u.y) _ gs.grid occ2
          · intro u hu
            exact actionable1_facts (pySort_mem.mp hu)
          · exact ((pySort_perm _ _).map
              (fun u : BUnit => u.unit_id)).nodup_iff.mpr hactnd
          · exact occInv_init gs.units
        | none =>
          apply one_phase_chk hids hpos
          · intro u occ2
            exact plan_capture_march_moveok u (u.x, u.y) _ gs.grid occ2
          · intro u hu
            exact actionable1_facts hu
          · exact hactnd
          · exact occInv_init gs.units
      · cases hfo : (if (pick_strategy_adaptive rng gs.units gs.info.round
            gs.info.game_id pid).name = "Assassin" then
            assign_assassin_targets (enemy_units_of gs.units pid)
          else
            assign_focus_targets (alive_units_of gs.units pid)
              (enemy_units_of gs.units pid)
              (pick_strategy_adaptive rng gs.units gs.info.round
                gs.info.game_id pid)) with
        | nil =>
          apply four_phase_chk hids hpos
          · intro u occ2
            exact plan_flanker_moveok u (u.x, u.y) _ _ gs.grid occ2 _ _
          · intro u occ2
            exact plan_retreat_moveok u (u.x, u.y) _ _ gs.grid occ2 _ _
          · intro u occ2 led
            exact plan_screener_moveok u (u.x, u.y) _ _ gs.grid occ2 led _ _
          · intro u occ2 led
            exact plan_combat_unit_moveok u (u.x, u.y) _ _ gs.grid occ2 led _ _
          · intro u hu
            rcases List.mem_append.mp hu with hu | hu
            · rcases List.mem_append.mp hu with hu | hu
              · rcases List.mem_append.mp hu with hu | hu
                · exact actionable_facts (splitPair_fst_sub hu)
                · rw [List.partition_eq_filter_filter] at hu
                  dsimp only at hu
                  rcases List.mem_append.mp (List.mem_filter.mp hu).1 with h | h
                  · exact actionable_facts
                      (splitPair_snd_sub (splitPair_snd_sub h))
                  · exact actionable_facts h
              · exact actionable_facts
                  (splitPair_snd_sub (splitPair_fst_sub hu))
            · rw [List.partition_eq_filter_filter] at hu
              dsimp only at hu
              rcases List.mem_append.mp (List.mem_filter.mp hu).1 with h | h
              · exact actionable_facts
                  (splitPair_snd_sub (splitPair_snd_sub h))
              · exact actionable_facts h
          · exact ((groups_perm splitPair_perm splitPair_perm
              partition_append_perm (List.Perm.refl _) (filter_ne_perm _)).map
              (fun u : BUnit => u.unit_id)).nodup_iff.mpr hactnd
          · exact occInv_init gs.units
        | cons ft fo2 =>
          apply four_phase_chk hids hpos
          · intro u occ2
            exact plan_flanker_moveok u (u.x, u.y) _ _ gs.grid occ2 _ _
          · intro u occ2
            exact plan_retreat_moveok u (u.x, u.y) _ _ gs.grid occ2 _ _
          · intro u occ2 led
            exact plan_screener_moveok u (u.x, u.y) _ _ gs.grid occ2 led _ _
          · intro u occ2 led
            exact plan_combat_unit_moveok u (u.x, u.y) _ _ gs.grid occ2 led _ _
          · intro u hu
            rcases List.mem_append.mp hu with hu | hu
            · rcases List.mem_append.mp hu with hu | hu
              · rcases List.mem_append.mp hu with hu | hu
                · exact actionable_facts (splitPair_fst_sub hu)
                · rw [List.partition_eq_filter_filter] at hu
                  dsimp only at hu
                  rcases List.mem_append.mp (List.mem_filter.mp hu).1 with h | h
                  · exact actionable_facts
                      (splitPair_snd_sub (splitPair_snd_sub h))
                  · exact actionable_facts h
              · exact actionable_facts
                  (splitPair_snd_sub (splitPair_fst_sub hu))
            · replace hu := pySort_mem.mp hu
              rw [List.partition_eq_filter_filter] at hu
              dsimp only at hu
              rcases List.mem_append.mp (List.mem_filter.mp hu).1 with h | h
              · exact actionable_facts
                  (splitPair_snd_sub (splitPair_snd_sub h))
              · exact actionable_facts h
          · exact ((groups_perm splitPair_perm splitPair_perm
              partition_append_perm (pySort_perm _ _) (filter_ne_perm _)).map
              (fun u : BUnit => u.unit_id)).nodup_iff.mpr hactnd
          · exact occInv_init gs.units

/-- C9 (witness): the hypotheses hold and the movement check succeeds on
the capture snapshot, whose planned turn contains a Move action. -/
theorem moves_occupancy_sound_witness :
    ((gsCapture.units.map (fun v => v.unit_id)).Nodup ∧ PosInj gsCapture.units ∧
      get_hq_of gsCapture.buildings (opponent_of 1) ≠ none) ∧
    (movesChk gsCapture.units ([], []) (plan_turn rng0 gsCapture 1)).isSome = true :=
  ⟨⟨by decide, by decide, by decide⟩,
    moves_occupancy_sound rng0 gsCapture 1 (by decide) (by decide) (by decide)⟩
